import Mathlib

/-!
# Verification of the `profil_logger` package

This file gives a shallow embedding, in Lean 4, of the core of the
`profil_logger` repository (files `profil_logger/handlers.py` and
`profil_logger/logger.py`), and proves or refutes the specification's
claims about it.

Modelling conventions:

* Python strings are modelled as `List Char` (`Str`).  UTF-8/Unicode
  subtleties do not matter for the claims at hand; Python's ASCII-range
  `str.upper`/`str.strip`/`str.split` behaviours are reproduced exactly.
* `datetime.datetime` is modelled by `PyDateTime` (year .. microsecond);
  `datetime.isoformat` and `datetime.fromisoformat` are modelled on the
  canonical grammar `YYYY-MM-DD[THH:MM:SS[.ffffff]]` that `isoformat`
  itself produces (plus the date-only form).  CPython's `fromisoformat`
  additionally accepts other ISO-8601 shapes (separators other than `T`,
  short fractions, time zones, ...), none of which is ever produced by
  the handlers under verification.
* File contents are explicit values: the text log is a raw `List Char`,
  the CSV log a list of rows, the JSON log an algebraic value
  (`JsonContent`), the SQLite table an optional list of rows (`none`
  models a dropped table).
* Raised-and-caught Python exceptions are modelled with `Option`/flags;
  an operation that can never raise to its caller is a total function.
-/

/-- Python strings, modelled as their character lists. -/
abbrev Str := List Char

/-- Character list of a Lean string literal (used to write Python string
constants). -/
def str (s : String) : Str := s.data

/-- The whitespace characters stripped by Python's `str.strip()` (ASCII
range). -/
def isPyWs (c : Char) : Bool :=
  c = ' ' || c = '\t' || c = '\n' || c = '\r' || c = '\x0b' || c = '\x0c'

/-- Python `str.upper()` (ASCII case mapping; the level names it is
applied to are ASCII). -/
def pyUpper (s : Str) : Str := s.map Char.toUpper

/-- Byte-wise (memcmp) lexicographic `≤` on character lists.  This is
SQLite's BINARY collation, restricted to the ASCII strings the handlers
store. -/
def memLe : Str → Str → Bool
  | [], _ => true
  | _ :: _, [] => false
  | a :: as, b :: bs => if a < b then true else if b < a then false else memLe as bs

theorem memLe_refl (l : Str) : memLe l l = true := by
  induction l with
  | nil => rfl
  | cons a as ih => simp [memLe, ih]

theorem memLe_total (a b : Str) : memLe a b = true ∨ memLe b a = true := by
  induction a generalizing b with
  | nil => left; rfl
  | cons x xs ih =>
    cases b with
    | nil => right; rfl
    | cons y ys =>
      rcases lt_trichotomy x y with h | h | h
      · left; simp [memLe, h]
      · subst h
        rcases ih ys with h2 | h2
        · left; simpa [memLe] using h2
        · right; simpa [memLe] using h2
      · right; simp [memLe, h]

theorem memLe_trans {a b c : Str} (h1 : memLe a b = true) (h2 : memLe b c = true) :
    memLe a c = true := by
  induction a generalizing b c with
  | nil => rfl
  | cons x xs ih =>
    cases b with
    | nil => simp [memLe] at h1
    | cons y ys =>
      cases c with
      | nil => simp [memLe] at h2
      | cons z zs =>
        simp only [memLe] at h1 h2 ⊢
        rcases lt_trichotomy x y with hxy | hxy | hxy
        · rcases lt_trichotomy y z with hyz | hyz | hyz
          · simp [lt_trans hxy hyz]
          · subst hyz; simp [hxy]
          · by_cases hxz : x < z
            · simp [hxz]
            · simp only [if_neg (lt_asymm hyz), if_pos hyz] at h2
              exact absurd h2 (by simp)
        · subst hxy
          rcases lt_trichotomy x z with hyz | hyz | hyz
          · simp [hyz]
          · subst hyz
            simp only [if_neg (lt_irrefl x)] at h1 h2 ⊢
            exact ih h1 h2
          · simp only [if_neg (lt_asymm hyz), if_pos hyz] at h2
            exact absurd h2 (by simp)
        · simp only [if_neg (lt_asymm hxy), if_pos hxy] at h1
          exact absurd h1 (by simp)

theorem memLe_nil_iff (l : Str) : memLe l [] = true ↔ l = [] := by
  cases l <;> simp [memLe]

theorem memLe_cons_same (c : Char) (a b : Str) :
    memLe (c :: a) (c :: b) = memLe a b := by
  simp [memLe]

/-! ## `datetime.datetime` -/

/-- A value of Python's `datetime.datetime` (naive, i.e. no time zone —
the code never attaches one). -/
structure PyDateTime where
  year : Nat
  month : Nat
  day : Nat
  hour : Nat
  minute : Nat
  second : Nat
  microsecond : Nat
deriving DecidableEq, Repr

/-- Gregorian leap-year test, as `calendar.isleap` / `datetime` use it. -/
def isLeap (y : Nat) : Bool := y % 4 = 0 && (y % 100 ≠ 0 || y % 400 = 0)

/-- Days in a month (for `datetime`'s day-range validation). -/
def daysInMonth (y mo : Nat) : Nat :=
  if mo = 2 then (if isLeap y then 29 else 28)
  else if mo = 4 || mo = 6 || mo = 9 || mo = 11 then 30
  else 31

/-- The field ranges that an actual `datetime.datetime` object satisfies
(its constructor rejects everything else). -/
def PyDateTime.Valid (d : PyDateTime) : Prop :=
  1 ≤ d.year ∧ d.year ≤ 9999 ∧ 1 ≤ d.month ∧ d.month ≤ 12 ∧
  1 ≤ d.day ∧ d.day ≤ daysInMonth d.year d.month ∧
  d.hour ≤ 23 ∧ d.minute ≤ 59 ∧ d.second ≤ 59 ∧ d.microsecond ≤ 999999

instance (d : PyDateTime) : Decidable d.Valid := by
  unfold PyDateTime.Valid; infer_instance

/-- The decimal digit character for `n < 10`. -/
def digitChar : Nat → Char
  | 0 => '0' | 1 => '1' | 2 => '2' | 3 => '3' | 4 => '4'
  | 5 => '5' | 6 => '6' | 7 => '7' | 8 => '8' | 9 => '9'
  | _ => '0'

/-- Value `n` printed in decimal, zero-padded to exactly `k` digits
(most-significant digit first). -/
def padDigits : Nat → Nat → Str
  | 0, _ => []
  | k + 1, n => digitChar (n / 10 ^ k) :: padDigits k (n % 10 ^ k)

/-- Consume exactly `k` decimal digits from the front of `cs`,
accumulating their value onto `acc`; fail on a non-digit or on running
out of input. -/
def readDigits : Nat → Nat → Str → Option (Nat × Str)
  | acc, 0, cs => some (acc, cs)
  | _, _ + 1, [] => none
  | acc, k + 1, c :: cs =>
    if c.isDigit then readDigits (acc * 10 + (c.toNat - 48)) k cs else none

/-- Consume one expected punctuation character. -/
def expectChar (c : Char) : Str → Option Str
  | [] => none
  | x :: xs => if x = c then some xs else none

/-- Model of `datetime.isoformat()`: `YYYY-MM-DDTHH:MM:SS`, with `.ffffff`
appended exactly when the microsecond field is nonzero. -/
def isoformat (d : PyDateTime) : Str :=
  padDigits 4 d.year ++ '-' :: padDigits 2 d.month ++ '-' :: padDigits 2 d.day
    ++ 'T' :: padDigits 2 d.hour ++ ':' :: padDigits 2 d.minute
    ++ ':' :: padDigits 2 d.second
    ++ (if d.microsecond = 0 then [] else '.' :: padDigits 6 d.microsecond)

/-- Parse the `[THH:MM:SS[.ffffff]]` tail of an ISO string ([] means
midnight, matching `fromisoformat` on a bare date). -/
def parseTimePart : Str → Option (Nat × Nat × Nat × Nat)
  | [] => some (0, 0, 0, 0)
  | c :: cs =>
    if c = 'T' then do
      let (hh, cs) ← readDigits 0 2 cs
      let cs ← expectChar ':' cs
      let (mi, cs) ← readDigits 0 2 cs
      let cs ← expectChar ':' cs
      let (ss, cs) ← readDigits 0 2 cs
      match cs with
      | [] => some (hh, mi, ss, 0)
      | c2 :: cs2 =>
        if c2 = '.' then do
          let (us, cs3) ← readDigits 0 6 cs2
          if cs3 = [] then some (hh, mi, ss, us) else none
        else none
    else none

/-- Model of `datetime.fromisoformat`, on the canonical grammar produced by
`isoformat` (plus the bare-date form).  Returns `none` where Python
raises `ValueError`. -/
def fromisoformat (cs : Str) : Option PyDateTime := do
  let (y, cs) ← readDigits 0 4 cs
  let cs ← expectChar '-' cs
  let (mo, cs) ← readDigits 0 2 cs
  let cs ← expectChar '-' cs
  let (dy, cs) ← readDigits 0 2 cs
  let (hh, mi, ss, us) ← parseTimePart cs
  let d : PyDateTime := ⟨y, mo, dy, hh, mi, ss, us⟩
  if d.Valid then some d else none

/-- Python `datetime` comparison `a <= b`: lexicographic on the field
tuple. -/
def dtLe (a b : PyDateTime) : Bool :=
  if a.year ≠ b.year then decide (a.year < b.year)
  else if a.month ≠ b.month then decide (a.month < b.month)
  else if a.day ≠ b.day then decide (a.day < b.day)
  else if a.hour ≠ b.hour then decide (a.hour < b.hour)
  else if a.minute ≠ b.minute then decide (a.minute < b.minute)
  else if a.second ≠ b.second then decide (a.second < b.second)
  else decide (a.microsecond ≤ b.microsecond)

/-- Python `datetime` comparison `a < b`. -/
def dtLt (a b : PyDateTime) : Bool :=
  if a.year ≠ b.year then decide (a.year < b.year)
  else if a.month ≠ b.month then decide (a.month < b.month)
  else if a.day ≠ b.day then decide (a.day < b.day)
  else if a.hour ≠ b.hour then decide (a.hour < b.hour)
  else if a.minute ≠ b.minute then decide (a.minute < b.minute)
  else if a.second ≠ b.second then decide (a.second < b.second)
  else decide (a.microsecond < b.microsecond)

/-! ### Digit-block lemmas -/

theorem char_toNat_inj {a b : Char} (h : a.toNat = b.toNat) : a = b := by
  have h2 := Char.ofNat_toNat a
  rw [h, Char.ofNat_toNat] at h2
  exact h2.symm

theorem isDigit_toNat_bounds {c : Char} (h : c.isDigit = true) :
    48 ≤ c.toNat ∧ c.toNat ≤ 57 := by
  simp only [Char.isDigit, Bool.and_eq_true, decide_eq_true_eq] at h
  exact ⟨h.1, h.2⟩

theorem digitChar_spec : ∀ n, n < 10 →
    (digitChar n).isDigit = true ∧ (digitChar n).toNat = 48 + n := by decide

theorem readDigits_padDigits (k : Nat) : ∀ acc n r, n < 10 ^ k →
    readDigits acc k (padDigits k n ++ r) = some (acc * 10 ^ k + n, r) := by
  induction k with
  | zero =>
    intro acc n r h
    have hn : n = 0 := Nat.lt_one_iff.mp h
    simp [padDigits, readDigits, hn]
  | succ k ih =>
    intro acc n r h
    have hd : n / 10 ^ k < 10 := by
      apply Nat.div_lt_of_lt_mul
      calc n < 10 ^ (k + 1) := h
        _ = 10 ^ k * 10 := by rw [pow_succ]
    obtain ⟨hdig, hval⟩ := digitChar_spec _ hd
    have hmod : n % 10 ^ k < 10 ^ k := Nat.mod_lt _ (Nat.pos_pow_of_pos k (by norm_num))
    simp only [padDigits, List.cons_append, readDigits, hdig, if_pos, hval]
    rw [Nat.add_sub_cancel_left]
    simp only [List.append_eq]
    rw [ih _ _ _ hmod]
    have hsplit : (n / 10 ^ k) * 10 ^ k + n % 10 ^ k = n := by
      rw [Nat.mul_comm]
      exact Nat.div_add_mod n (10 ^ k)
    have harith : (acc * 10 + n / 10 ^ k) * 10 ^ k + n % 10 ^ k = acc * 10 ^ (k + 1) + n := by
      calc (acc * 10 + n / 10 ^ k) * 10 ^ k + n % 10 ^ k
          = acc * (10 ^ k * 10) + ((n / 10 ^ k) * 10 ^ k + n % 10 ^ k) := by ring
        _ = acc * 10 ^ (k + 1) + n := by rw [hsplit, pow_succ]
    rw [harith]

theorem readDigits_bound : ∀ k acc cs v r, readDigits acc k cs = some (v, r) →
    acc * 10 ^ k ≤ v ∧ v < (acc + 1) * 10 ^ k := by
  intro k
  induction k with
  | zero =>
    intro acc cs v r h
    simp only [readDigits, Option.some.injEq, Prod.mk.injEq] at h
    omega
  | succ k ih =>
    intro acc cs v r h
    cases cs with
    | nil => simp [readDigits] at h
    | cons c cs =>
      simp only [readDigits] at h
      by_cases hc : c.isDigit
      · rw [if_pos hc] at h
        obtain ⟨h1, h2⟩ := ih _ _ _ _ h
        have hb := isDigit_toNat_bounds hc
        have hdc : c.toNat - 48 ≤ 9 := by omega
        have hp : (0:Nat) < 10 ^ k := Nat.pos_pow_of_pos k (by norm_num)
        constructor
        · calc acc * 10 ^ (k + 1) = (acc * 10) * 10 ^ k := by rw [pow_succ]; ring
            _ ≤ (acc * 10 + (c.toNat - 48)) * 10 ^ k := by
                apply Nat.mul_le_mul_right; omega
            _ ≤ v := h1
        · calc v < (acc * 10 + (c.toNat - 48) + 1) * 10 ^ k := h2
            _ ≤ ((acc + 1) * 10) * 10 ^ k := by
                apply Nat.mul_le_mul_right; omega
            _ = (acc + 1) * 10 ^ (k + 1) := by rw [pow_succ]; ring
      · rw [if_neg hc] at h
        exact absurd h (by simp)

theorem readDigits_cmp : ∀ k acc cs1 cs2 v1 r1 v2 r2,
    readDigits acc k cs1 = some (v1, r1) → readDigits acc k cs2 = some (v2, r2) →
    memLe cs1 cs2 = true → v1 < v2 ∨ (v1 = v2 ∧ memLe r1 r2 = true) := by
  intro k
  induction k with
  | zero =>
    intro acc cs1 cs2 v1 r1 v2 r2 h1 h2 hm
    simp only [readDigits, Option.some.injEq, Prod.mk.injEq] at h1 h2
    right
    obtain ⟨hv1, hr1⟩ := h1
    obtain ⟨hv2, hr2⟩ := h2
    subst hv1; subst hr1; subst hv2; subst hr2
    exact ⟨rfl, hm⟩
  | succ k ih =>
    intro acc cs1 cs2 v1 r1 v2 r2 h1 h2 hm
    cases cs1 with
    | nil => simp [readDigits] at h1
    | cons a as =>
      cases cs2 with
      | nil => simp [readDigits] at h2
      | cons b bs =>
        simp only [readDigits] at h1 h2
        by_cases ha : a.isDigit
        · by_cases hb : b.isDigit
          · rw [if_pos ha] at h1
            rw [if_pos hb] at h2
            have hba := isDigit_toNat_bounds ha
            have hbb := isDigit_toNat_bounds hb
            simp only [memLe] at hm
            rcases lt_trichotomy a b with hab | hab | hab
            · -- strictly smaller first digit: v1 < v2
              left
              have hda : a.toNat < b.toNat := hab
              obtain ⟨hl1, hu1⟩ := readDigits_bound _ _ _ _ _ h1
              obtain ⟨hl2, hu2⟩ := readDigits_bound _ _ _ _ _ h2
              calc v1 < (acc * 10 + (a.toNat - 48) + 1) * 10 ^ k := hu1
                _ ≤ (acc * 10 + (b.toNat - 48)) * 10 ^ k := by
                    apply Nat.mul_le_mul_right; omega
                _ ≤ v2 := hl2
            · subst hab
              simp only [if_neg (lt_irrefl a)] at hm
              exact ih _ _ _ _ _ _ _ h1 h2 hm
            · rw [if_neg (lt_asymm hab), if_pos hab] at hm
              exact absurd hm (by simp)
          · rw [if_neg hb] at h2
            exact absurd h2 (by simp)
        · rw [if_neg ha] at h1
          exact absurd h1 (by simp)

theorem expectChar_inv {c : Char} {r r' : Str} (h : expectChar c r = some r') :
    r = c :: r' := by
  cases r with
  | nil => simp [expectChar] at h
  | cons x xs =>
    simp only [expectChar] at h
    by_cases hx : x = c
    · rw [if_pos hx] at h
      simp only [Option.some.injEq] at h
      rw [hx, h]
    · rw [if_neg hx] at h
      exact absurd h (by simp)

/-- Inversion of a successful `parseTimePart`. -/
theorem parseTimePart_inv {re : Str} {hh mi ss us : Nat}
    (h : parseTimePart re = some (hh, mi, ss, us)) :
    (re = [] ∧ hh = 0 ∧ mi = 0 ∧ ss = 0 ∧ us = 0) ∨
    (∃ rf rg rh ri rj rk,
      re = 'T' :: rf ∧
      readDigits 0 2 rf = some (hh, rg) ∧
      expectChar ':' rg = some rh ∧
      readDigits 0 2 rh = some (mi, ri) ∧
      expectChar ':' ri = some rj ∧
      readDigits 0 2 rj = some (ss, rk) ∧
      ((rk = [] ∧ us = 0) ∨ (∃ rl, rk = '.' :: rl ∧ readDigits 0 6 rl = some (us, [])))) := by
  cases re with
  | nil =>
    simp only [parseTimePart, Option.some.injEq, Prod.mk.injEq] at h
    left
    exact ⟨rfl, h.1.symm, h.2.1.symm, h.2.2.1.symm, h.2.2.2.symm⟩
  | cons c rf =>
    rw [parseTimePart] at h
    by_cases hc : c = 'T'
    case neg => rw [if_neg hc] at h; exact absurd h (by simp)
    rw [if_pos hc] at h
    subst hc
    right
    cases e1 : readDigits 0 2 rf with
    | none => rw [e1] at h; simp at h
    | some p1 =>
      obtain ⟨hh', rg⟩ := p1
      rw [e1] at h
      simp only [Option.bind_eq_bind, Option.some_bind] at h
      cases e2 : expectChar ':' rg with
      | none => rw [e2] at h; simp at h
      | some rh =>
        rw [e2] at h
        simp only [Option.bind_eq_bind, Option.some_bind] at h
        cases e3 : readDigits 0 2 rh with
        | none => rw [e3] at h; simp at h
        | some p2 =>
          obtain ⟨mi', ri⟩ := p2
          rw [e3] at h
          simp only [Option.bind_eq_bind, Option.some_bind] at h
          cases e4 : expectChar ':' ri with
          | none => rw [e4] at h; simp at h
          | some rj =>
            rw [e4] at h
            simp only [Option.bind_eq_bind, Option.some_bind] at h
            cases e5 : readDigits 0 2 rj with
            | none => rw [e5] at h; simp at h
            | some p3 =>
              obtain ⟨ss', rk⟩ := p3
              rw [e5] at h
              simp only [Option.bind_eq_bind, Option.some_bind] at h
              cases rk with
              | nil =>
                simp only [Option.some.injEq, Prod.mk.injEq] at h
                obtain ⟨hhh, hmi, hss, hus⟩ := h
                subst hhh; subst hmi; subst hss
                exact ⟨rf, rg, rh, ri, rj, [], rfl, e1, e2, e3, e4, e5,
                  Or.inl ⟨rfl, hus.symm⟩⟩
              | cons c2 rl =>
                dsimp only at h
                by_cases hc2 : c2 = '.'
                case neg => rw [if_neg hc2] at h; exact absurd h (by simp)
                rw [if_pos hc2] at h
                subst hc2
                cases e6 : readDigits 0 6 rl with
                | none => rw [e6] at h; simp at h
                | some p4 =>
                  obtain ⟨us', rm⟩ := p4
                  rw [e6] at h
                  simp only [Option.bind_eq_bind, Option.some_bind] at h
                  by_cases hrm : rm = ([] : Str)
                  · rw [if_pos hrm] at h
                    simp only [Option.some.injEq, Prod.mk.injEq] at h
                    obtain ⟨hhh, hmi, hss, hus⟩ := h
                    subst hhh; subst hmi; subst hss; subst hrm
                    exact ⟨rf, rg, rh, ri, rj, '.' :: rl, rfl, e1, e2, e3, e4, e5,
                      Or.inr ⟨rl, rfl, hus ▸ e6⟩⟩
                  · rw [if_neg hrm] at h
                    exact absurd h (by simp)

/-- Inversion of a successful `fromisoformat`. -/
theorem fromisoformat_inv {cs : Str} {d : PyDateTime} (h : fromisoformat cs = some d) :
    ∃ ra rb rc rd re,
      readDigits 0 4 cs = some (d.year, ra) ∧
      expectChar '-' ra = some rb ∧
      readDigits 0 2 rb = some (d.month, rc) ∧
      expectChar '-' rc = some rd ∧
      readDigits 0 2 rd = some (d.day, re) ∧
      parseTimePart re = some (d.hour, d.minute, d.second, d.microsecond) ∧
      d.Valid := by
  rw [fromisoformat] at h
  cases e1 : readDigits 0 4 cs with
  | none => rw [e1] at h; simp at h
  | some p1 =>
    obtain ⟨y, ra⟩ := p1
    rw [e1] at h
    simp only [Option.bind_eq_bind, Option.some_bind] at h
    cases e2 : expectChar '-' ra with
    | none => rw [e2] at h; simp at h
    | some rb =>
      rw [e2] at h
      simp only [Option.bind_eq_bind, Option.some_bind] at h
      cases e3 : readDigits 0 2 rb with
      | none => rw [e3] at h; simp at h
      | some p2 =>
        obtain ⟨mo, rc⟩ := p2
        rw [e3] at h
        simp only [Option.bind_eq_bind, Option.some_bind] at h
        cases e4 : expectChar '-' rc with
        | none => rw [e4] at h; simp at h
        | some rd =>
          rw [e4] at h
          simp only [Option.bind_eq_bind, Option.some_bind] at h
          cases e5 : readDigits 0 2 rd with
          | none => rw [e5] at h; simp at h
          | some p3 =>
            obtain ⟨dy, re⟩ := p3
            rw [e5] at h
            simp only [Option.bind_eq_bind, Option.some_bind] at h
            cases e6 : parseTimePart re with
            | none => rw [e6] at h; simp at h
            | some p4 =>
              obtain ⟨hh, mi, ss, us⟩ := p4
              rw [e6] at h
              simp only [Option.bind_eq_bind, Option.some_bind] at h
              by_cases hv : PyDateTime.Valid ⟨y, mo, dy, hh, mi, ss, us⟩
              · rw [if_pos hv] at h
                simp only [Option.some.injEq] at h
                subst h
                exact ⟨ra, rb, rc, rd, re, rfl, e2, e3, e4, e5, e6, hv⟩
              · rw [if_neg hv] at h
                exact absurd h (by simp)

theorem day_le_31 (y mo : Nat) : daysInMonth y mo ≤ 31 := by
  unfold daysInMonth
  split
  · split <;> omega
  · split <;> omega

theorem readDigits_padDigits_nil (k acc n : Nat) (h : n < 10 ^ k) :
    readDigits acc k (padDigits k n) = some (acc * 10 ^ k + n, []) := by
  have h2 := readDigits_padDigits k acc n [] h
  rwa [List.append_nil] at h2

/-- Parsing is a left inverse of rendering: `fromisoformat` undoes `isoformat` on actual of `isoformat` on actual
`datetime` values. -/
theorem fromisoformat_isoformat (d : PyDateTime) (hV : d.Valid) :
    fromisoformat (isoformat d) = some d := by
  obtain ⟨h1, h2, h3, h4, h5, h6, h7, h8, h9, h10⟩ := hV
  have hy : d.year < 10 ^ 4 := by norm_num; omega
  have hmo : d.month < 10 ^ 2 := by norm_num; omega
  have hdm := day_le_31 d.year d.month
  have hd : d.day < 10 ^ 2 := by norm_num; omega
  have hh : d.hour < 10 ^ 2 := by norm_num; omega
  have hmi : d.minute < 10 ^ 2 := by norm_num; omega
  have hs : d.second < 10 ^ 2 := by norm_num; omega
  have hus6 : d.microsecond < 10 ^ 6 := by norm_num; omega
  have hVd : PyDateTime.Valid d := ⟨h1, h2, h3, h4, h5, h6, h7, h8, h9, h10⟩
  rw [isoformat, fromisoformat]
  simp only [List.append_assoc, List.cons_append]
  rw [readDigits_padDigits 4 0 d.year _ hy]
  simp only [Option.bind_eq_bind, Option.some_bind, expectChar, if_pos]
  rw [readDigits_padDigits 2 0 d.month _ hmo]
  simp only [Option.bind_eq_bind, Option.some_bind, expectChar, if_pos]
  rw [readDigits_padDigits 2 0 d.day _ hd]
  simp only [Option.bind_eq_bind, Option.some_bind]
  by_cases hus : d.microsecond = 0
  · rw [if_pos hus]
    simp only [List.append_nil]
    rw [parseTimePart]
    simp only [if_pos rfl]
    rw [readDigits_padDigits 2 0 d.hour _ hh]
    simp only [Option.bind_eq_bind, Option.some_bind, expectChar, if_pos]
    rw [readDigits_padDigits 2 0 d.minute _ hmi]
    simp only [Option.bind_eq_bind, Option.some_bind, expectChar, if_pos]
    rw [readDigits_padDigits_nil 2 0 d.second hs]
    simp only [Option.bind_eq_bind, Option.some_bind, Nat.zero_mul, Nat.zero_add]
    have heq : ({ year := d.year, month := d.month, day := d.day, hour := d.hour,
                  minute := d.minute, second := d.second,
                  microsecond := 0 } : PyDateTime) = d := by
      cases d
      simp only at hus
      subst hus
      rfl
    rw [heq, if_pos hVd]
  · rw [if_neg hus]
    rw [parseTimePart]
    simp only [if_pos rfl]
    rw [readDigits_padDigits 2 0 d.hour _ hh]
    simp only [Option.bind_eq_bind, Option.some_bind, expectChar, if_pos]
    rw [readDigits_padDigits 2 0 d.minute _ hmi]
    simp only [Option.bind_eq_bind, Option.some_bind, expectChar, if_pos]
    rw [readDigits_padDigits 2 0 d.second _ hs]
    simp only [Option.bind_eq_bind, Option.some_bind, if_pos rfl]
    rw [readDigits_padDigits_nil 6 0 d.microsecond hus6]
    simp only [Option.bind_eq_bind, Option.some_bind, Nat.zero_mul, Nat.zero_add,
      if_pos rfl]
    show (if PyDateTime.Valid d then some d else none) = some d
    rw [if_pos hVd]

theorem dtLe_of_fields {a b : PyDateTime}
    (hc : a.year < b.year ∨ (a.year = b.year ∧ (a.month < b.month ∨ (a.month = b.month ∧
      (a.day < b.day ∨ (a.day = b.day ∧ (a.hour < b.hour ∨ (a.hour = b.hour ∧
      (a.minute < b.minute ∨ (a.minute = b.minute ∧ (a.second < b.second ∨
      (a.second = b.second ∧ a.microsecond ≤ b.microsecond)))))))))))) :
    dtLe a b = true := by
  simp only [dtLe, ne_eq, ite_not, decide_eq_true_eq]
  rcases hc with h | ⟨e1, h | ⟨e2, h | ⟨e3, h | ⟨e4, h | ⟨e5, h | ⟨e6, h⟩⟩⟩⟩⟩⟩ <;>
    split_ifs <;> simp only [decide_eq_true_eq] <;> omega

/-- A successfully parsed earlier (memcmp-smaller-or-equal) string
denotes an earlier-or-equal `datetime`: on the canonical ISO grammar,
SQLite's textual `ORDER BY timestamp ASC` agrees with chronological
order. -/
theorem fromisoformat_memLe {s1 s2 : Str} {d1 d2 : PyDateTime}
    (h1 : fromisoformat s1 = some d1) (h2 : fromisoformat s2 = some d2)
    (hm : memLe s1 s2 = true) : dtLe d1 d2 = true := by
  obtain ⟨ra1, rb1, rc1, rd1, re1, f1, g1, i1, j1, k1, l1, v1⟩ := fromisoformat_inv h1
  obtain ⟨ra2, rb2, rc2, rd2, re2, f2, g2, i2, j2, k2, l2, v2⟩ := fromisoformat_inv h2
  -- year block
  rcases readDigits_cmp _ _ _ _ _ _ _ _ f1 f2 hm with hy | ⟨hy, hm⟩
  · exact dtLe_of_fields (by omega)
  obtain rfl := expectChar_inv g1
  obtain rfl := expectChar_inv g2
  rw [memLe_cons_same] at hm
  -- month block
  rcases readDigits_cmp _ _ _ _ _ _ _ _ i1 i2 hm with hmo | ⟨hmo, hm⟩
  · exact dtLe_of_fields (by omega)
  obtain rfl := expectChar_inv j1
  obtain rfl := expectChar_inv j2
  rw [memLe_cons_same] at hm
  -- day block
  rcases readDigits_cmp _ _ _ _ _ _ _ _ k1 k2 hm with hd | ⟨hd, hm⟩
  · exact dtLe_of_fields (by omega)
  -- time part
  rcases parseTimePart_inv l1 with ⟨hre1, hh1, hmi1, hss1, hus1⟩ |
    ⟨rf1, rg1, rh1, ri1, rj1, rk1, hre1, p1, q1, r1, s1', t1, u1⟩
  · -- d1 has the midnight time part
    rcases parseTimePart_inv l2 with ⟨hre2, hh2, hmi2, hss2, hus2⟩ |
      ⟨rf2, rg2, rh2, ri2, rj2, rk2, hre2, p2, q2, r2, s2', t2, u2⟩
    · exact dtLe_of_fields (by omega)
    · exact dtLe_of_fields (by omega)
  · -- d1 has an explicit time part
    rcases parseTimePart_inv l2 with ⟨hre2, hh2, hmi2, hss2, hus2⟩ |
      ⟨rf2, rg2, rh2, ri2, rj2, rk2, hre2, p2, q2, r2, s2', t2, u2⟩
    · -- s2 ends at the date: memLe forces re1 = [], contradiction
      subst hre1; subst hre2
      rw [memLe_nil_iff] at hm
      simp at hm
    · subst hre1; subst hre2
      rw [memLe_cons_same] at hm
      -- hour block
      rcases readDigits_cmp _ _ _ _ _ _ _ _ p1 p2 hm with hhh | ⟨hhh, hm⟩
      · exact dtLe_of_fields (by omega)
      obtain rfl := expectChar_inv q1
      obtain rfl := expectChar_inv q2
      rw [memLe_cons_same] at hm
      -- minute block
      rcases readDigits_cmp _ _ _ _ _ _ _ _ r1 r2 hm with hmim | ⟨hmim, hm⟩
      · exact dtLe_of_fields (by omega)
      obtain rfl := expectChar_inv s1'
      obtain rfl := expectChar_inv s2'
      rw [memLe_cons_same] at hm
      -- second block
      rcases readDigits_cmp _ _ _ _ _ _ _ _ t1 t2 hm with hsec | ⟨hsec, hm⟩
      · exact dtLe_of_fields (by omega)
      -- fraction
      rcases u1 with ⟨hrk1, hus1⟩ | ⟨rl1, hrk1, w1⟩
      · rcases u2 with ⟨hrk2, hus2⟩ | ⟨rl2, hrk2, w2⟩
        · exact dtLe_of_fields (by omega)
        · exact dtLe_of_fields (by omega)
      · rcases u2 with ⟨hrk2, hus2⟩ | ⟨rl2, hrk2, w2⟩
        · subst hrk1; subst hrk2
          rw [memLe_nil_iff] at hm
          simp at hm
        · subst hrk1; subst hrk2
          rw [memLe_cons_same] at hm
          rcases readDigits_cmp _ _ _ _ _ _ _ _ w1 w2 hm with husm | ⟨husm, _⟩
          · exact dtLe_of_fields (by omega)
          · exact dtLe_of_fields (by omega)

/-! ## `logger.py`: `LogEntry` and the level table -/

/-- Model of `logger.LogEntry`.  The `level` field is a plain string: the class
annotates it as one of the five level names, but the retrieval paths in
`handlers.py` construct entries with arbitrary level strings, so the
annotation is not an enforced invariant. -/
structure LogEntry where
  date : PyDateTime
  level : Str
  message : Str
deriving DecidableEq, Repr

/-- Model of `logger.LOG_LEVEL_VALUES` (an insertion-ordered dict). -/
def LOG_LEVEL_VALUES : List (Str × Nat) :=
  [(str "DEBUG", 0), (str "INFO", 1), (str "WARNING", 2), (str "ERROR", 3),
   (str "CRITICAL", 4)]

/-- Dictionary lookup in `LOG_LEVEL_VALUES` (`None` models a missing
key). -/
def levelValue (s : Str) : Option Nat :=
  (LOG_LEVEL_VALUES.find? (fun p => p.1 = s)).map Prod.snd

/-- Constant `logger.DEFAULT_LOG_LEVEL` is `"DEBUG"`, whose value is `0`. -/
def DEFAULT_LOG_LEVEL_VAL : Nat := 0

/-- A JSON/CSV scalar as seen by `LogEntry.from_dict`: either a string
or Python's `None`.  (Other scalar types behave like `none'` for the
`date` — `TypeError`, caught — and the `level` — not a dict key — and do
not occur in the claims; a non-string `message` is not modelled, see
`from_dict`.) -/
inductive PyVal where
  | none'
  | strv (s : Str)
deriving DecidableEq, Repr

/-- A decoded record dict: each field is `none` when the key is absent,
`some .none'` when the key maps to JSON `null`/Python `None`. -/
structure RawRecord where
  date : Option PyVal
  level : Option PyVal
  message : Option PyVal
deriving DecidableEq, Repr

/-- Model of `LogEntry.to_dict`. -/
def LogEntry.to_dict (e : LogEntry) : RawRecord :=
  { date := some (.strv (isoformat e.date)),
    level := some (.strv e.level),
    message := some (.strv e.message) }

/-- Model of `LogEntry.from_dict`: `None` unless all three keys are present, the
date parses, and the level is a key of `LOG_LEVEL_VALUES`.

Deviation from the source, outside the claims' inputs: a record whose
`message` key holds a non-string (e.g. `None` from a short CSV row)
yields in Python an entry whose message is that non-string value;
here `LogEntry.message` is a string, so such records decode to `none`. -/
def LogEntry.from_dict (r : RawRecord) : Option LogEntry :=
  match r.date, r.level, r.message with
  | some dv, some lv, some mv =>
    match dv, lv, mv with
    | .strv ds, .strv ls, .strv ms =>
      match fromisoformat ds with
      | none => none
      | some d =>
        if (levelValue ls).isSome then some ⟨d, ls, ms⟩ else none
    | _, _, _ => none
  | _, _, _ => none

/-! ## `handlers.py`: `FileHandler` (plain-text backend) -/

/-- Python `str.strip()` (made of two one-sided strips). -/
def pyStripR (l : Str) : Str := (l.reverse.dropWhile isPyWs).reverse

/-- Python `str.strip()`. -/
def pyStrip (l : Str) : Str := pyStripR (l.dropWhile isPyWs)

/-- Split off everything up to the first space; `none` as second
component when there is no space. -/
def breakSp : Str → Str × Option Str
  | [] => ([], none)
  | c :: r =>
    if c = ' ' then ([], some r)
    else
      let p := breakSp r
      (c :: p.1, p.2)

/-- Python `s.split(" ", 2)`: at most two splits, remainder kept whole
(consecutive separators produce empty parts). -/
def pySplitSp2 (l : Str) : List Str :=
  match breakSp l with
  | (a, none) => [a]
  | (a, some r) =>
    match breakSp r with
    | (b, none) => [a, b]
    | (b, some r2) => [a, b, r2]

/-- Universal-newline translation performed by reading a file in text
mode: `\r\n` and bare `\r` both become `\n`. -/
def univNl : Str → Str
  | [] => []
  | '\r' :: '\n' :: cs => '\n' :: univNl cs
  | '\r' :: cs => '\n' :: univNl cs
  | c :: cs => c :: univNl cs

/-- Split a translated file body into the chunks delimited by `'\n'`.
Iterating a Python file yields each chunk with its trailing newline
(absent on the last); since the decoder starts with `strip()`, chunks
without the delimiter are an equivalent model.  The final chunk is
empty for a newline-terminated file and is harmlessly rejected by the
3-part split. -/
def splitNl : Str → List Str
  | [] => [[]]
  | c :: cs =>
    if c = '\n' then [] :: splitNl cs
    else (c :: (splitNl cs).headI) :: (splitNl cs).tail

/-- The body of `FileHandler.retrieve_all_logs_file`'s per-line loop:
`line.strip().split(" ", 2)`, require exactly 3 parts, parse the date
(`ValueError` → skip), upper-case the level — note: no level-name
validation. -/
def decodeFileLine (line : Str) : Option LogEntry :=
  match pySplitSp2 (pyStrip line) with
  | [p0, p1, p2] =>
    match fromisoformat p0 with
    | none => none
    | some d => some ⟨d, pyUpper p1, p2⟩
  | _ => none

/-- Model of `FileHandler.persist_log_file`: append
`f"{entry.date.isoformat()} {entry.level} {entry.message}\n"` to the
file. -/
def persist_log_file (content : Str) (e : LogEntry) : Str :=
  content ++ (isoformat e.date ++ ' ' :: e.level ++ ' ' :: e.message ++ ['\n'])

/-- Model of `FileHandler.retrieve_all_logs_file`: parse each line, silently
skipping undecodable ones.  (Total: every failure inside the loop is
caught in the source.) -/
def retrieve_all_logs_file (content : Str) : List LogEntry :=
  (splitNl (univNl content)).filterMap decodeFileLine

/-! ## `handlers.py`: `JsonHandler` -/

/-- The JSON log file's state.  `corrupt` stands for any non-empty file
content that is not valid JSON.  (Valid JSON that is not an array makes
`persist_log_json` raise `AttributeError` in the source and is not
modelled; the claims only concern missing/empty/unparsable content and
array content.) -/
inductive JsonContent where
  | missing
  | empty
  | corrupt
  | arr (records : List RawRecord)
deriving DecidableEq, Repr

/-- Model of `JsonHandler.persist_log_json`: re-read the whole array (missing,
empty, or undecodable content becomes `[]`), append `entry.to_dict()`,
rewrite the file. -/
def persist_log_json (content : JsonContent) (e : LogEntry) : JsonContent :=
  let all_logs_data : List RawRecord :=
    match content with
    | .missing => []   -- os.path.exists is false, the read is skipped
    | .empty => []     -- os.path.getsize is 0, the read is skipped
    | .corrupt => []   -- json.load raises JSONDecodeError, caught
    | .arr records => records
  .arr (all_logs_data ++ [e.to_dict])

/-- Model of `JsonHandler.retrieve_all_logs_json`: `[]` when the file is missing
(`FileNotFoundError`) or unreadable (`JSONDecodeError`, also raised on
an empty file); otherwise decode each record with `from_dict`, keeping
the successes. -/
def retrieve_all_logs_json (content : JsonContent) : List LogEntry :=
  match content with
  | .missing => []
  | .empty => []
  | .corrupt => []
  | .arr records => records.filterMap LogEntry.from_dict

/-! ## `handlers.py`: `CSVHandler` -/

/-- Turn a data row (as `csv.DictReader` with header
`["date", "level", "message"]` sees it) into a record dict: missing
cells become `None`, extra cells go under the `None` rest-key and are
invisible to `from_dict`.  A zero-cell row is skipped by the reader
itself (handled in `retrieve_all_logs_csv`). -/
def csvRowToRecord (row : List Str) : RawRecord :=
  { date := some ((row.get? 0).elim PyVal.none' PyVal.strv),
    level := some ((row.get? 1).elim PyVal.none' PyVal.strv),
    message := some ((row.get? 2).elim PyVal.none' PyVal.strv) }

/-- Model of `CSVHandler.persist_log_csv`: append the row
`[d["date"], d["level"], d["message"]]` of `entry.to_dict()`. -/
def persist_log_csv (rows : List (List Str)) (e : LogEntry) : List (List Str) :=
  rows ++ [[isoformat e.date, e.level, e.message]]

/-- Model of `CSVHandler.retrieve_all_logs_csv` on the data rows following the
header: decode each row via `from_dict`, keeping the successes; blank
rows are skipped by `csv.DictReader`. -/
def retrieve_all_logs_csv (rows : List (List Str)) : List LogEntry :=
  rows.filterMap fun row =>
    match row with
    | [] => none
    | _ => LogEntry.from_dict (csvRowToRecord row)

/-! ## `handlers.py`: `SQLLiteHandler` -/

/-- One row of the `logs` table (the surrogate `id` column plays no
role in retrieval and is omitted). -/
structure SqlRow where
  timestamp : Str
  level : Str
  message : Str
deriving DecidableEq, Repr

/-- Model of `SQLLiteHandler.persist_log_sql`: insert
`(entry.date.isoformat(), entry.level, entry.message)`. -/
def persist_log_sql (rows : List SqlRow) (e : LogEntry) : List SqlRow :=
  rows ++ [⟨isoformat e.date, e.level, e.message⟩]

/-- The per-row decode of `retrieve_all_logs_sql`: parse the timestamp
(`ValueError` → skip); the level is taken as stored, unvalidated. -/
def decodeSqlRow (r : SqlRow) : Option LogEntry :=
  match fromisoformat r.timestamp with
  | none => none
  | some d => some ⟨d, r.level, r.message⟩

/-- Model of `ORDER BY timestamp ASC` under SQLite's BINARY collation
(byte-wise comparison of the timestamp text; ties in unspecified
order — a stable sort is one admissible refinement). -/
def sortByTimestamp (rows : List SqlRow) : List SqlRow :=
  rows.insertionSort fun a b => memLe a.timestamp b.timestamp = true

/-- Model of `SQLLiteHandler.retrieve_all_logs_sql`: `none` for the table models
a dropped table (`sqlite3.Error` on the SELECT, caught → `[]`);
otherwise decode the rows in `ORDER BY timestamp ASC` order. -/
def retrieve_all_logs_sql (table : Option (List SqlRow)) : List LogEntry :=
  match table with
  | none => []
  | some rows => (sortByTimestamp rows).filterMap decodeSqlRow

/-! ## `logger.py`: `ProfilLogger` (dispatcher) -/

/-- A handler as `ProfilLogger._write_to_handler` probes it: four
optional persist methods (one per known attribute name).  A method maps
an entry and the handler's storage state to the state after the call
plus a success flag; `false` models a raised exception (whose partial
effects on the state are kept, as in Python). -/
structure MHandler (σ : Type) where
  persist_log_sql : Option (LogEntry → σ → σ × Bool)
  persist_log_json : Option (LogEntry → σ → σ × Bool)
  persist_log_csv : Option (LogEntry → σ → σ × Bool)
  persist_log_file : Option (LogEntry → σ → σ × Bool)

/-- One probe step: absent method — state unchanged, not a success. -/
def tryPersist {σ : Type} (m : Option (LogEntry → σ → σ × Bool)) (e : LogEntry)
    (s : σ) : σ × Bool :=
  match m with
  | none => (s, false)
  | some f => f e s

/-- Model of `ProfilLogger._write_to_handler`: probe the four method names in
order, return after the first success; every exception is caught, so
the function is total (the final `logger.error` call is invisible
here). -/
def write_to_handler {σ : Type} (h : MHandler σ) (e : LogEntry) (s : σ) : σ :=
  let p1 := tryPersist h.persist_log_sql e s
  if p1.2 then p1.1 else
    let p2 := tryPersist h.persist_log_json e p1.1
    if p2.2 then p2.1 else
      let p3 := tryPersist h.persist_log_csv e p2.1
      if p3.2 then p3.1 else
        let p4 := tryPersist h.persist_log_file e p3.1
        p4.1

/-- Model of `ProfilLogger._log`, acting on the list of handler states (the
handler objects are static, their storage states are threaded
explicitly). `now` is the sampled `datetime.datetime.now()`; `none`
models the `KeyError` a call with an unknown level name would raise —
the five public methods only pass valid literals. -/
def profil_log {σ : Type} (handlers : List (MHandler σ)) (states : List σ)
    (threshold : Nat) (level : Str) (now : PyDateTime) (message : Str) :
    Option (List σ) :=
  match levelValue level with
  | none => none
  | some v =>
    if v < threshold then some states
    else
      some ((handlers.zip states).map fun p =>
        write_to_handler p.1 ⟨now, level, message⟩ p.2)

/-- Model of `ProfilLogger.set_log_level`:
`LOG_LEVEL_VALUES.get(level.upper(), current)`. -/
def set_log_level (level : Str) (current : Nat) : Nat :=
  (levelValue (pyUpper level)).getD current

/-! ## `logger.py`: `ProfilLoggerReader` -/

/-- Model of `ProfilLoggerReader._filter_by_date`.  A `datetime` object is always
truthy, so `not start_date` is exactly `start_date is None`. -/
def filter_by_date (logs : List LogEntry) (start_date end_date : Option PyDateTime) :
    List LogEntry :=
  logs.filter fun log =>
    (match start_date with
     | none => true
     | some sd => dtLe sd log.date) &&
    (match end_date with
     | none => true
     | some ed => dtLt log.date ed)

/-- Does `t` occur as a leading segment of `s`? -/
def leadsWith : Str → Str → Bool
  | [], _ => true
  | _ :: _, [] => false
  | a :: ts, b :: ss => a = b && leadsWith ts ss

/-- Python's substring test `t in s` (contiguous occurrence anywhere;
always true for the empty string). -/
def pyIn (t s : Str) : Bool :=
  match s with
  | [] => t.isEmpty
  | _ :: ss => leadsWith t s || pyIn t ss

/-- Model of `ProfilLoggerReader.find_by_text` on the retrieved entries:
substring filter, then date filter. -/
def find_by_text (logs : List LogEntry) (text : Str)
    (start_date end_date : Option PyDateTime) : List LogEntry :=
  filter_by_date (logs.filter fun log => pyIn text log.message)
    start_date end_date

/-- Model of `ProfilLoggerReader.find_by_regex` on the retrieved entries.  The
`re` module is not part of this repository: it enters as parameters —
`compile` (returning `none` where `re.compile` raises `re.error`) and
`search` (`pattern.search` finding a match anywhere in the string).
Only the compile call can raise inside the `try`. -/
def find_by_regex {R : Type} (compile : Str → Option R) (search : R → Str → Bool)
    (logs : List LogEntry) (regex : Str)
    (start_date end_date : Option PyDateTime) : List LogEntry :=
  match compile regex with
  | none => []
  | some pattern =>
    filter_by_date (logs.filter fun log => search pattern log.message)
      start_date end_date

/-- Appending to `defaultdict(list)` under a key: Python dicts preserve
first-insertion key order, modelled as an association list. -/
def addToGroup (acc : List (Str × List LogEntry)) (k : Str) (e : LogEntry) :
    List (Str × List LogEntry) :=
  match acc with
  | [] => [(k, [e])]
  | (k', es) :: rest =>
    if k' = k then (k', es ++ [e]) :: rest else (k', es) :: addToGroup rest k e

/-- The `defaultdict(list)` grouping loop shared by `group_by_level` and
`group_by_month`. -/
def pyGroup (key : LogEntry → Str) (logs : List LogEntry) :
    List (Str × List LogEntry) :=
  logs.foldl (fun acc e => addToGroup acc (key e) e) []

/-- Model of `ProfilLoggerReader.group_by_level` on the retrieved entries. -/
def group_by_level (logs : List LogEntry)
    (start_date end_date : Option PyDateTime) : List (Str × List LogEntry) :=
  pyGroup (fun log => log.level) (filter_by_date logs start_date end_date)

/-- Model of `log.date.strftime("%Y-%m")` (zero-padded, as on CPython/glibc for
the in-range years a `datetime` can hold). -/
def monthKey (d : PyDateTime) : Str :=
  padDigits 4 d.year ++ '-' :: padDigits 2 d.month

/-- Model of `ProfilLoggerReader.group_by_month` on the retrieved entries. -/
def group_by_month (logs : List LogEntry)
    (start_date end_date : Option PyDateTime) : List (Str × List LogEntry) :=
  pyGroup (fun log => monthKey log.date) (filter_by_date logs start_date end_date)

/-- Association-list lookup (Python `dict[k]` / `k in dict`). -/
def assocFind (k : Str) : List (Str × List LogEntry) → Option (List LogEntry)
  | [] => none
  | (k', es) :: rest => if k' = k then some es else assocFind k rest

/-! ### Character-class facts used for the text-backend round trip -/

theorem digitChar_isDigit (n : Nat) : (digitChar n).isDigit = true := by
  unfold digitChar
  split <;> rfl

theorem padDigits_mem_isDigit : ∀ k n c, c ∈ padDigits k n → c.isDigit = true := by
  intro k
  induction k with
  | zero => intro n c hc; simp [padDigits] at hc
  | succ k ih =>
    intro n c hc
    simp only [padDigits, List.mem_cons] at hc
    rcases hc with rfl | hc
    · exact digitChar_isDigit _
    · exact ih _ _ hc

theorem isDigit_not_ws {c : Char} (h : c.isDigit = true) :
    isPyWs c = false ∧ c ≠ ' ' ∧ c ≠ '\n' ∧ c ≠ '\r' := by
  obtain ⟨hl, hu⟩ := isDigit_toNat_bounds h
  have hx : ∀ x : Char, x.toNat < 48 → c ≠ x := by
    intro x hxv hcx
    rw [hcx] at hl
    omega
  have h1 : c ≠ ' ' := hx ' ' (by decide)
  have h2 : c ≠ '\t' := hx '\t' (by decide)
  have h3 : c ≠ '\n' := hx '\n' (by decide)
  have h4 : c ≠ '\r' := hx '\r' (by decide)
  have h5 : c ≠ '\x0b' := hx '\x0b' (by decide)
  have h6 : c ≠ '\x0c' := hx '\x0c' (by decide)
  refine ⟨?_, h1, h3, h4⟩
  simp only [isPyWs, Bool.or_eq_false_iff, decide_eq_false_iff_not]
  exact ⟨⟨⟨⟨⟨h1, h2⟩, h3⟩, h4⟩, h5⟩, h6⟩

/-- Every character of an `isoformat` rendering is a digit or one of
`-:T.` — in particular no space, newline, or carriage return. -/
theorem isoformat_mem (d : PyDateTime) :
    ∀ c ∈ isoformat d, c.isDigit = true ∨ c = '-' ∨ c = ':' ∨ c = 'T' ∨ c = '.' := by
  intro c hc
  simp only [isoformat, List.append_assoc, List.cons_append, List.mem_append,
    List.mem_cons] at hc
  rcases hc with hc | hc
  · exact Or.inl (padDigits_mem_isDigit _ _ _ hc)
  rcases hc with rfl | hc
  · exact Or.inr (Or.inl rfl)
  rcases hc with hc | hc
  · exact Or.inl (padDigits_mem_isDigit _ _ _ hc)
  rcases hc with rfl | hc
  · exact Or.inr (Or.inl rfl)
  rcases hc with hc | hc
  · exact Or.inl (padDigits_mem_isDigit _ _ _ hc)
  rcases hc with rfl | hc
  · exact Or.inr (Or.inr (Or.inr (Or.inl rfl)))
  rcases hc with hc | hc
  · exact Or.inl (padDigits_mem_isDigit _ _ _ hc)
  rcases hc with rfl | hc
  · exact Or.inr (Or.inr (Or.inl rfl))
  rcases hc with hc | hc
  · exact Or.inl (padDigits_mem_isDigit _ _ _ hc)
  rcases hc with rfl | hc
  · exact Or.inr (Or.inr (Or.inl rfl))
  rcases hc with hc | hc
  · exact Or.inl (padDigits_mem_isDigit _ _ _ hc)
  · by_cases hus : d.microsecond = 0
    · rw [if_pos hus] at hc
      simp at hc
    · rw [if_neg hus] at hc
      simp only [List.mem_cons] at hc
      rcases hc with rfl | hc
      · exact Or.inr (Or.inr (Or.inr (Or.inr rfl)))
      · exact Or.inl (padDigits_mem_isDigit _ _ _ hc)

theorem isoformat_no_sp_nl (d : PyDateTime) :
    ∀ c ∈ isoformat d, c ≠ ' ' ∧ c ≠ '\n' ∧ c ≠ '\r' := by
  intro c hc
  rcases isoformat_mem d c hc with h | h | h | h | h
  · obtain ⟨_, h1, h2, h3⟩ := isDigit_not_ws h
    exact ⟨h1, h2, h3⟩
  all_goals subst h
  all_goals exact ⟨by decide, by decide, by decide⟩

/-- The head of an `isoformat` rendering is a digit. -/
theorem isoformat_head (d : PyDateTime) :
    ∃ c rest, isoformat d = c :: rest ∧ c.isDigit = true := by
  rw [isoformat, padDigits]
  simp only [List.cons_append, List.append_assoc]
  exact ⟨_, _, rfl, digitChar_isDigit _⟩

/-- Facts about the five valid level names needed for the text
round trip. -/
theorem levelValue_isSome_cases {s : Str} (h : (levelValue s).isSome = true) :
    s = str "DEBUG" ∨ s = str "INFO" ∨ s = str "WARNING" ∨ s = str "ERROR" ∨
    s = str "CRITICAL" := by
  by_cases h1 : s = str "DEBUG"
  · exact Or.inl h1
  by_cases h2 : s = str "INFO"
  · exact Or.inr (Or.inl h2)
  by_cases h3 : s = str "WARNING"
  · exact Or.inr (Or.inr (Or.inl h3))
  by_cases h4 : s = str "ERROR"
  · exact Or.inr (Or.inr (Or.inr (Or.inl h4)))
  by_cases h5 : s = str "CRITICAL"
  · exact Or.inr (Or.inr (Or.inr (Or.inr h5)))
  exfalso
  have h1' : (str "DEBUG" = s) = False := eq_false fun e => h1 e.symm
  have h2' : (str "INFO" = s) = False := eq_false fun e => h2 e.symm
  have h3' : (str "WARNING" = s) = False := eq_false fun e => h3 e.symm
  have h4' : (str "ERROR" = s) = False := eq_false fun e => h4 e.symm
  have h5' : (str "CRITICAL" = s) = False := eq_false fun e => h5 e.symm
  simp [levelValue, LOG_LEVEL_VALUES, List.find?, h1', h2', h3', h4', h5'] at h

/-! ### `strip` / `split` / line lemmas -/

theorem pyStrip_eq_self {l : Str} (h1 : ∀ c, l.head? = some c → isPyWs c = false)
    (h2 : ∀ c, l.getLast? = some c → isPyWs c = false) : pyStrip l = l := by
  rw [pyStrip]
  have hdrop : l.dropWhile isPyWs = l := by
    cases l with
    | nil => rfl
    | cons c cs =>
      rw [List.dropWhile_cons, if_neg]
      rw [h1 c rfl]
      simp
  rw [hdrop, pyStripR]
  cases hr : l.reverse with
  | nil =>
    have : l = [] := by simpa using congrArg List.reverse hr
    simp [this]
  | cons c cs =>
    have hlast : l.getLast? = some c := by
      rw [← List.head?_reverse, hr]
      rfl
    rw [List.dropWhile_cons, if_neg (by rw [h2 c hlast]; simp)]
    rw [← hr, List.reverse_reverse]

theorem breakSp_no_sp {x : Str} (h : ∀ c ∈ x, c ≠ ' ') : breakSp x = (x, none) := by
  induction x with
  | nil => rfl
  | cons c cs ih =>
    rw [breakSp, if_neg (h c (List.mem_cons_self c cs))]
    rw [ih fun c' hc' => h c' (List.mem_cons_of_mem _ hc')]

theorem breakSp_append {x : Str} (y : Str) (h : ∀ c ∈ x, c ≠ ' ') :
    breakSp (x ++ ' ' :: y) = (x, some y) := by
  induction x with
  | nil => simp [breakSp]
  | cons c cs ih =>
    simp only [List.cons_append]
    rw [breakSp, if_neg (h c (List.mem_cons_self c cs))]
    rw [ih fun c' hc' => h c' (List.mem_cons_of_mem _ hc')]

/-- Behavior of `s.split(" ", 2)` on a line of shape `p0 ⟨sp⟩ p1 ⟨sp⟩ p2` with
space-free `p0`, `p1`. -/
theorem pySplitSp2_shape (p0 p1 p2 : Str) (h0 : ∀ c ∈ p0, c ≠ ' ')
    (h1 : ∀ c ∈ p1, c ≠ ' ') :
    pySplitSp2 (p0 ++ ' ' :: (p1 ++ ' ' :: p2)) = [p0, p1, p2] := by
  simp only [pySplitSp2, breakSp_append _ h0, breakSp_append _ h1]

theorem splitNl_ne_nil (s : Str) : splitNl s ≠ [] := by
  cases s with
  | nil => simp [splitNl]
  | cons c cs =>
    rw [splitNl]
    split <;> simp

theorem splitNl_eq_single {s : Str} (h : splitNl s = [[]]) : s = [] := by
  cases s with
  | nil => rfl
  | cons c cs =>
    rw [splitNl] at h
    split at h
    · simp only [List.cons.injEq] at h
      exact absurd h.2 (splitNl_ne_nil cs)
    · simp only [List.cons.injEq, List.cons_ne_self] at h
      exact absurd h.1 (by simp)

/-- A string is newline-terminated (or empty): the invariant the text
handler maintains for its file. -/
def NlTerminated (s : Str) : Prop := s = [] ∨ s.getLast? = some '\n'

theorem splitNl_last_empty {s : Str} (hwf : NlTerminated s) (hne : s ≠ []) :
    ∃ ps, splitNl s = ps ++ [[]] := by
  induction s with
  | nil => exact absurd rfl hne
  | cons c cs ih =>
    rcases hwf with hwf | hwf
    · exact absurd hwf hne
    cases cs with
    | nil =>
      simp only [List.getLast?_singleton, Option.some.injEq] at hwf
      subst hwf
      exact ⟨[[]], rfl⟩
    | cons c2 cs2 =>
      have hwf2 : NlTerminated (c2 :: cs2) := by
        right
        rw [← hwf, List.getLast?_cons_cons]
      obtain ⟨ps', hps'⟩ := ih (by exact hwf2) (by simp)
      rw [splitNl]
      by_cases hc : c = '\n'
      · rw [if_pos hc, hps']
        exact ⟨[] :: ps', rfl⟩
      · rw [if_neg hc, hps']
        cases ps' with
        | nil =>
          exfalso
          exact absurd (splitNl_eq_single hps') (by simp)
        | cons p ps'' =>
          simp only [List.cons_append, List.headI, List.tail]
          exact ⟨(c :: p) :: ps'', rfl⟩

/-- One unfolding step of `splitNl`. -/
theorem splitNl_cons (c : Char) (cs : Str) :
    splitNl (c :: cs) = if c = '\n' then [] :: splitNl cs
      else (c :: (splitNl cs).headI) :: (splitNl cs).tail := by
  rw [splitNl]

/-- Splitting a newline-terminated string followed by anything. -/
theorem splitNl_append {s : Str} (t : Str) (hwf : NlTerminated s) :
    splitNl (s ++ t) = (splitNl s).dropLast ++ splitNl t := by
  induction s with
  | nil => simp [splitNl]
  | cons c cs ih =>
    rcases hwf with hwf | hwf
    · simp at hwf
    cases cs with
    | nil =>
      simp only [List.getLast?_singleton, Option.some.injEq] at hwf
      subst hwf
      simp [splitNl]
    | cons c2 cs2 =>
      have hwf2 : NlTerminated (c2 :: cs2) := by
        right
        rw [← hwf, List.getLast?_cons_cons]
      have ihr := ih hwf2
      obtain ⟨ps', hps'⟩ := splitNl_last_empty hwf2 (by simp)
      cases ps' with
      | nil => exact absurd (splitNl_eq_single hps') (by simp)
      | cons p ps'' =>
        by_cases hc : c = '\n'
        · subst hc
          rw [List.cons_append, splitNl_cons, if_pos rfl, ihr]
          conv_rhs => rw [splitNl_cons, if_pos rfl]
          rw [List.dropLast_cons_of_ne_nil (splitNl_ne_nil _)]
          rfl
        · rw [List.cons_append, splitNl_cons, if_neg hc, ihr, hps']
          rw [splitNl_cons, if_neg hc, hps']
          rw [List.dropLast_concat]
          simp only [List.cons_append, List.headI, List.tail]
          conv_rhs => rw [← List.cons_append, List.dropLast_concat]
          simp

/-- Splitting a newline-free chunk followed by a newline. -/
theorem splitNl_chunk {body : Str} (h : ∀ c ∈ body, c ≠ '\n') :
    splitNl (body ++ ['\n']) = [body, []] := by
  induction body with
  | nil => simp [splitNl]
  | cons c cs ih =>
    have hr := ih fun c' hc' => h c' (List.mem_cons_of_mem _ hc')
    rw [List.cons_append, splitNl_cons, if_neg (h c (List.mem_cons_self c cs)), hr]
    rfl

theorem univNl_no_cr : ∀ {s : Str}, (∀ c ∈ s, c ≠ '\r') → univNl s = s := by
  intro s
  induction s with
  | nil => intro; rfl
  | cons c cs ih =>
    intro h
    have hc : c ≠ '\r' := h c (List.mem_cons_self c cs)
    have hr := ih fun c' hc' => h c' (List.mem_cons_of_mem _ hc')
    cases cs with
    | nil =>
      rw [univNl.eq_def]
      split <;> simp_all
    | cons c2 cs2 =>
      rw [univNl.eq_def]
      split <;> simp_all

/-- Shared facts about the five level names. -/
theorem levelName_facts {s : Str} (h : (levelValue s).isSome = true) :
    (∀ c ∈ s, c ≠ ' ' ∧ c ≠ '\n' ∧ c ≠ '\r') ∧ pyUpper s = s := by
  rcases levelValue_isSome_cases h with rfl | rfl | rfl | rfl | rfl <;>
    exact ⟨by decide, by decide⟩

/-- Decoding the exact line `persist_log_file` writes (without its
trailing newline) recovers the entry. -/
theorem decodeFileLine_round (e : LogEntry) (hV : e.date.Valid)
    (hL : (levelValue e.level).isSome = true)
    (hm2 : e.message ≠ [])
    (hm3 : ∀ c, e.message.getLast? = some c → isPyWs c = false) :
    decodeFileLine (isoformat e.date ++ ' ' :: (e.level ++ ' ' :: e.message)) =
      some e := by
  obtain ⟨hLc, hLu⟩ := levelName_facts hL
  have hstrip : pyStrip (isoformat e.date ++ ' ' :: (e.level ++ ' ' :: e.message)) =
      isoformat e.date ++ ' ' :: (e.level ++ ' ' :: e.message) := by
    apply pyStrip_eq_self
    · intro c hc
      obtain ⟨c0, rest, hiso, hdig⟩ := isoformat_head e.date
      rw [hiso] at hc
      simp only [List.cons_append, List.head?_cons, Option.some.injEq] at hc
      subst hc
      exact (isDigit_not_ws hdig).1
    · intro c hc
      rw [List.getLast?_append_of_ne_nil _ (by simp)] at hc
      have hshape : ' ' :: (e.level ++ ' ' :: e.message) =
          ((' ' :: e.level) ++ [' ']) ++ e.message := by simp
      rw [hshape, List.getLast?_append_of_ne_nil _ hm2] at hc
      exact hm3 c hc
  rw [decodeFileLine, hstrip]
  rw [pySplitSp2_shape _ _ _ (fun c hc => ((isoformat_no_sp_nl e.date) c hc).1)
    (fun c hc => (hLc c hc).1)]
  dsimp only
  rw [fromisoformat_isoformat e.date hV, hLu]

/-- The empty chunk left after a trailing newline decodes to nothing. -/
theorem decodeFileLine_nil : decodeFileLine [] = none := rfl

/-- Appending one well-formed line to a newline-terminated file adds
exactly one retrievable entry at the end. -/
theorem retrieve_after_persist_file (content : Str) (e : LogEntry)
    (hwf : NlTerminated content) (hcr : ∀ c ∈ content, c ≠ '\r')
    (hV : e.date.Valid) (hL : (levelValue e.level).isSome = true)
    (hm1 : ∀ c ∈ e.message, c ≠ '\n' ∧ c ≠ '\r')
    (hm2 : e.message ≠ [])
    (hm3 : ∀ c, e.message.getLast? = some c → isPyWs c = false) :
    retrieve_all_logs_file (persist_log_file content e) =
      retrieve_all_logs_file content ++ [e] := by
  obtain ⟨hLc, _⟩ := levelName_facts hL
  have hbody_cr : ∀ c ∈ isoformat e.date ++ ' ' :: (e.level ++ ' ' :: e.message),
      c ≠ '\r' := by
    intro c hc
    simp only [List.mem_append, List.mem_cons] at hc
    rcases hc with hc | rfl | hc | rfl | hc
    · exact (isoformat_no_sp_nl e.date c hc).2.2
    · decide
    · exact (hLc c hc).2.2
    · decide
    · exact (hm1 c hc).2
  have hbody_nl : ∀ c ∈ isoformat e.date ++ ' ' :: (e.level ++ ' ' :: e.message),
      c ≠ '\n' := by
    intro c hc
    simp only [List.mem_append, List.mem_cons] at hc
    rcases hc with hc | rfl | hc | rfl | hc
    · exact (isoformat_no_sp_nl e.date c hc).2.1
    · decide
    · exact (hLc c hc).2.1
    · decide
    · exact (hm1 c hc).1
  have hshape : persist_log_file content e =
      content ++ ((isoformat e.date ++ ' ' :: (e.level ++ ' ' :: e.message)) ++ ['\n']) := by
    rw [persist_log_file]
    simp [List.append_assoc]
  rw [hshape, retrieve_all_logs_file, univNl_no_cr ?hnocr]
  case hnocr =>
    intro c hc
    rcases List.mem_append.mp hc with hc2 | hc2
    · exact hcr c hc2
    · rcases List.mem_append.mp hc2 with hc3 | hc3
      · exact hbody_cr c hc3
      · simp only [List.mem_singleton] at hc3
        subst hc3
        decide
  rw [splitNl_append _ hwf, splitNl_chunk hbody_nl]
  rw [List.filterMap_append]
  have hlast : (splitNl content).dropLast.filterMap decodeFileLine =
      retrieve_all_logs_file content := by
    rw [retrieve_all_logs_file, univNl_no_cr hcr]
    by_cases hn : content = []
    · subst hn
      rfl
    · obtain ⟨ps, hps⟩ := splitNl_last_empty hwf hn
      rw [hps, List.dropLast_concat, List.filterMap_append]
      simp [decodeFileLine_nil]
  rw [hlast]
  congr 1
  simp only [List.filterMap_cons, decodeFileLine_round e hV hL hm2 hm3,
    decodeFileLine_nil]
  rfl

/-! ### Round trip through `to_dict`/`from_dict` (JSON and CSV) -/

theorem from_dict_to_dict (e : LogEntry) (hV : e.date.Valid)
    (hL : (levelValue e.level).isSome = true) :
    LogEntry.from_dict e.to_dict = some e := by
  rw [LogEntry.from_dict, LogEntry.to_dict]
  dsimp only
  rw [fromisoformat_isoformat e.date hV]
  dsimp only
  rw [if_pos hL]

/-! ### Grouping lemmas -/

theorem assocFind_addToGroup (acc : List (Str × List LogEntry)) (k k' : Str)
    (e : LogEntry) :
    assocFind k (addToGroup acc k' e) =
      if k' = k then some ((assocFind k acc).getD [] ++ [e])
      else assocFind k acc := by
  induction acc with
  | nil =>
    by_cases h : k' = k
    · subst h
      simp [addToGroup, assocFind]
    · simp [addToGroup, assocFind, h]
  | cons p rest ih =>
    obtain ⟨k0, es⟩ := p
    rw [addToGroup]
    by_cases h0 : k0 = k'
    · subst h0
      rw [if_pos rfl]
      by_cases h : k0 = k
      · subst h
        simp [assocFind]
      · simp [assocFind, h]
    · rw [if_neg h0]
      by_cases h : k0 = k
      · subst h
        rw [assocFind, if_pos rfl, assocFind, if_pos rfl,
          if_neg (fun he => h0 he.symm)]
      · rw [assocFind, if_neg h, assocFind, if_neg h, ih]

/-- Lookup in the grouping of a list: present exactly when the filter is
non-empty, and bound to the in-order filtered sub-list. -/
theorem assocFind_pyGroup (key : LogEntry → Str) (logs : List LogEntry) (k : Str) :
    assocFind k (pyGroup key logs) =
      if logs.filter (fun e => key e = k) = [] then none
      else some (logs.filter (fun e => key e = k)) := by
  suffices hgen : ∀ acc, assocFind k (logs.foldl (fun a e => addToGroup a (key e) e) acc) =
      match assocFind k acc with
      | some es => some (es ++ logs.filter (fun e => key e = k))
      | none => if logs.filter (fun e => key e = k) = [] then none
          else some (logs.filter (fun e => key e = k)) by
    have h0 := hgen []
    rw [pyGroup, h0]
    rfl
  induction logs with
  | nil =>
    intro acc
    simp only [List.foldl_nil, List.filter_nil]
    match h : assocFind k acc with
    | some es => simp
    | none => simp
  | cons e rest ih =>
    intro acc
    rw [List.foldl_cons, ih, assocFind_addToGroup]
    by_cases hk : key e = k
    · rw [if_pos hk]
      have hf : List.filter (fun x => decide (key x = k)) (e :: rest) =
          e :: List.filter (fun x => decide (key x = k)) rest := by
        simp [List.filter_cons, hk]
      rw [hf]
      match h : assocFind k acc with
      | some es => simp [h]
      | none => simp [h]
    · rw [if_neg hk]
      have hf : List.filter (fun x => decide (key x = k)) (e :: rest) =
          List.filter (fun x => decide (key x = k)) rest := by
        simp [List.filter_cons, hk]
      rw [hf]

/-! ### Sorted retrieval (embedded database) -/

/-- The `ORDER BY` relation on rows. -/
def rowLe (a b : SqlRow) : Prop := memLe a.timestamp b.timestamp = true

instance : DecidableRel rowLe := fun a b => by
  unfold rowLe; infer_instance

instance : IsTotal SqlRow rowLe :=
  ⟨fun a b => memLe_total a.timestamp b.timestamp⟩

instance : IsTrans SqlRow rowLe :=
  ⟨fun _ _ _ h1 h2 => memLe_trans h1 h2⟩

theorem sortByTimestamp_perm (rows : List SqlRow) :
    (sortByTimestamp rows).Perm rows := by
  have h : sortByTimestamp rows = rows.insertionSort rowLe := rfl
  rw [h]
  exact List.perm_insertionSort rowLe rows

theorem sortByTimestamp_sorted (rows : List SqlRow) :
    (sortByTimestamp rows).Pairwise rowLe := by
  have h : sortByTimestamp rows = rows.insertionSort rowLe := rfl
  rw [h]
  exact List.sorted_insertionSort rowLe rows

/-- Transfer of pairwise ordering through `filterMap`. -/
theorem pairwise_filterMap_transfer {α β : Type} {R : α → α → Prop}
    {S : β → β → Prop} (f : α → Option β)
    (hf : ∀ a b, R a b → ∀ c, f a = some c → ∀ d, f b = some d → S c d) :
    ∀ {l : List α}, l.Pairwise R → (l.filterMap f).Pairwise S := by
  intro l hl
  induction hl with
  | nil => simp
  | cons hrel _ ih =>
    rename_i a rest hrest
    rw [List.filterMap_cons]
    match hfa : f a with
    | none => exact ih
    | some c =>
      refine List.Pairwise.cons ?_ ih
      intro d hd
      obtain ⟨b, hb, hfb⟩ := List.mem_filterMap.mp hd
      exact hf a b (hrel b hb) c hfa d hfb

/-- The decoded rows of a sorted table are chronologically sorted. -/
theorem retrieve_all_logs_sql_sorted (rows : List SqlRow) :
    (retrieve_all_logs_sql (some rows)).Pairwise
      (fun a b => dtLe a.date b.date = true) := by
  rw [retrieve_all_logs_sql]
  apply pairwise_filterMap_transfer decodeSqlRow ?_ (sortByTimestamp_sorted rows)
  intro a b hab c hc d hd
  rw [decodeSqlRow] at hc hd
  match ha : fromisoformat a.timestamp, hb : fromisoformat b.timestamp with
  | none, _ => rw [ha] at hc; exact absurd hc (by simp)
  | some da, none => rw [hb] at hd; exact absurd hd (by simp)
  | some da, some db =>
    rw [ha] at hc
    rw [hb] at hd
    simp only [Option.some.injEq] at hc hd
    subst hc; subst hd
    exact fromisoformat_memLe ha hb hab

/-- The decoded rows of a table are, up to the retrieval order, exactly
the rows whose timestamp parses. -/
theorem retrieve_all_logs_sql_perm (rows : List SqlRow) :
    (retrieve_all_logs_sql (some rows)).Perm (rows.filterMap decodeSqlRow) := by
  rw [retrieve_all_logs_sql]
  exact (sortByTimestamp_perm rows).filterMap decodeSqlRow

/-! ### Dispatcher lemmas -/

/-- The persist method every concrete handler implements, seen
abstractly: append one record to the store, succeed. -/
def appendMethod : LogEntry → List LogEntry → List LogEntry × Bool :=
  fun e s => (s ++ [e], true)

/-- A handler exposing exactly one of the four probed method names
(slot `i`), as each of the four concrete handler classes does. -/
def singleMethodHandler (i : Fin 4) : MHandler (List LogEntry) :=
  { persist_log_sql := if i = 0 then some appendMethod else none,
    persist_log_json := if i = 1 then some appendMethod else none,
    persist_log_csv := if i = 2 then some appendMethod else none,
    persist_log_file := if i = 3 then some appendMethod else none }

theorem write_to_handler_single (i : Fin 4) (e : LogEntry) (s : List LogEntry) :
    write_to_handler (singleMethodHandler i) e s = s ++ [e] := by
  fin_cases i <;> rfl

/-- A handler all of whose exposed methods raise (without mutating the
store, as an exception before any write does). -/
def FailsCleanly {σ : Type} (h : MHandler σ) : Prop :=
  (∀ f, h.persist_log_sql = some f → ∀ e s, f e s = (s, false)) ∧
  (∀ f, h.persist_log_json = some f → ∀ e s, f e s = (s, false)) ∧
  (∀ f, h.persist_log_csv = some f → ∀ e s, f e s = (s, false)) ∧
  (∀ f, h.persist_log_file = some f → ∀ e s, f e s = (s, false))

theorem write_to_handler_fails {σ : Type} {h : MHandler σ} (hf : FailsCleanly h)
    (e : LogEntry) (s : σ) : write_to_handler h e s = s := by
  obtain ⟨h1, h2, h3, h4⟩ := hf
  rw [write_to_handler]
  have e1 : tryPersist h.persist_log_sql e s = (s, false) := by
    rw [tryPersist.eq_def]
    match hm : h.persist_log_sql with
    | none => rfl
    | some f => exact h1 f hm e s
  rw [e1]
  dsimp only
  have e2 : tryPersist h.persist_log_json e s = (s, false) := by
    rw [tryPersist.eq_def]
    match hm : h.persist_log_json with
    | none => rfl
    | some f => exact h2 f hm e s
  rw [e2]
  dsimp only
  have e3 : tryPersist h.persist_log_csv e s = (s, false) := by
    rw [tryPersist.eq_def]
    match hm : h.persist_log_csv with
    | none => rfl
    | some f => exact h3 f hm e s
  rw [e3]
  dsimp only
  have e4 : tryPersist h.persist_log_file e s = (s, false) := by
    rw [tryPersist.eq_def]
    match hm : h.persist_log_file with
    | none => rfl
    | some f => exact h4 f hm e s
  rw [e4]
  simp

/-- Membership characterization of the shared date filter. -/
theorem mem_filter_by_date (logs : List LogEntry) (sd ed : Option PyDateTime)
    (l : LogEntry) :
    l ∈ filter_by_date logs sd ed ↔
      l ∈ logs ∧ (sd = none ∨ ∃ s0, sd = some s0 ∧ dtLe s0 l.date = true) ∧
        (ed = none ∨ ∃ e0, ed = some e0 ∧ dtLt l.date e0 = true) := by
  rw [filter_by_date, List.mem_filter]
  cases sd <;> cases ed <;> simp

/-! ## The claims -/

/-- C1 (counterexample): the round-trip claim quantifies over every
message without an embedded newline and every valid level, but the text
backend fails it already on the empty message: the written line
`"<iso> INFO \n"` strips to two space-separated parts, so the line is
discarded on read and `retrieveAll` after `persist` contains no entry at
all (the other hypotheses of the claim hold: `""` has no newline and
`INFO` is a valid level). -/
theorem C1_cex :
    (levelValue (str "INFO")).isSome = true ∧
    retrieve_all_logs_file
      (persist_log_file [] ⟨⟨2024, 1, 1, 0, 0, 0, 0⟩, str "INFO", []⟩) = [] := by
  constructor
  · decide
  · decide

/-- C1 (amended): for every handler variant, `persist(e)` followed by
`retrieveAll()` on the same store yields a sequence containing an entry
equal to `e` in timestamp, level and message — for valid levels and,
for the text backend, additionally a nonempty message with no `'\n'` or
`'\r'` and no trailing whitespace (Python `strip()` removes it on read),
on a newline-terminated (or fresh) store.  The JSON, CSV and database
backends round-trip every message. -/
theorem C1_roundtrip :
    (∀ (content : Str) (e : LogEntry), NlTerminated content →
      (∀ c ∈ content, c ≠ '\r') → e.date.Valid →
      (levelValue e.level).isSome = true →
      (∀ c ∈ e.message, c ≠ '\n' ∧ c ≠ '\r') → e.message ≠ [] →
      (∀ c, e.message.getLast? = some c → isPyWs c = false) →
      e ∈ retrieve_all_logs_file (persist_log_file content e)) ∧
    (∀ (content : JsonContent) (e : LogEntry), e.date.Valid →
      (levelValue e.level).isSome = true →
      e ∈ retrieve_all_logs_json (persist_log_json content e)) ∧
    (∀ (rows : List (List Str)) (e : LogEntry), e.date.Valid →
      (levelValue e.level).isSome = true →
      e ∈ retrieve_all_logs_csv (persist_log_csv rows e)) ∧
    (∀ (rows : List SqlRow) (e : LogEntry), e.date.Valid →
      (levelValue e.level).isSome = true →
      e ∈ retrieve_all_logs_sql (some (persist_log_sql rows e))) := by
  refine ⟨?_, ?_, ?_, ?_⟩
  · intro content e hwf hcr hV hL hm1 hm2 hm3
    rw [retrieve_after_persist_file content e hwf hcr hV hL hm1 hm2 hm3]
    simp
  · intro content e hV hL
    have hfd := from_dict_to_dict e hV hL
    cases content <;>
      simp [persist_log_json, retrieve_all_logs_json, List.filterMap_append, hfd]
  · intro rows e hV hL
    have hfd := from_dict_to_dict e hV hL
    rw [persist_log_csv, retrieve_all_logs_csv, List.filterMap_append]
    apply List.mem_append_right
    have hrec : csvRowToRecord [isoformat e.date, e.level, e.message] = e.to_dict := rfl
    simp [hrec, hfd]
  · intro rows e hV hL
    have hfd : decodeSqlRow ⟨isoformat e.date, e.level, e.message⟩ = some e := by
      rw [decodeSqlRow]
      dsimp only
      rw [fromisoformat_isoformat e.date hV]
    rw [(retrieve_all_logs_sql_perm _).mem_iff]
    rw [persist_log_sql, List.filterMap_append]
    apply List.mem_append_right
    simp [hfd]

/-- C1 (witness): the amended round trip evaluated on a concrete entry
and fresh stores. -/
theorem C1_witness :
    ((⟨⟨2024, 1, 1, 12, 30, 5, 0⟩, str "INFO", str "hello"⟩ : LogEntry) ∈
      retrieve_all_logs_file (persist_log_file []
        ⟨⟨2024, 1, 1, 12, 30, 5, 0⟩, str "INFO", str "hello"⟩)) ∧
    ((⟨⟨2024, 1, 1, 12, 30, 5, 0⟩, str "INFO", str "hello"⟩ : LogEntry) ∈
      retrieve_all_logs_json (persist_log_json .missing
        ⟨⟨2024, 1, 1, 12, 30, 5, 0⟩, str "INFO", str "hello"⟩)) ∧
    ((⟨⟨2024, 1, 1, 12, 30, 5, 0⟩, str "INFO", str "hello"⟩ : LogEntry) ∈
      retrieve_all_logs_csv (persist_log_csv []
        ⟨⟨2024, 1, 1, 12, 30, 5, 0⟩, str "INFO", str "hello"⟩)) ∧
    ((⟨⟨2024, 1, 1, 12, 30, 5, 0⟩, str "INFO", str "hello"⟩ : LogEntry) ∈
      retrieve_all_logs_sql (some (persist_log_sql []
        ⟨⟨2024, 1, 1, 12, 30, 5, 0⟩, str "INFO", str "hello"⟩))) := by
  refine ⟨?_, ?_, ?_, ?_⟩
  · exact C1_roundtrip.1 [] _ (Or.inl rfl) (by decide) (by decide) (by decide)
      (by decide) (by decide) (by decide)
  · exact C1_roundtrip.2.1 .missing _ (by decide) (by decide)
  · exact C1_roundtrip.2.2.1 [] _ (by decide) (by decide)
  · exact C1_roundtrip.2.2.2 [] _ (by decide) (by decide)

/-- C2: for a dispatcher with threshold `T`, a `log(level, msg)` call
with `severity(level) < T` returns immediately with every handler store
untouched (no entry constructed, no handler invoked), and a call with
`severity(level) ≥ T` constructs one entry
`⟨now, level, msg⟩` and appends exactly that one entry to every
handler's store (each concrete handler exposes exactly one persist
method, which appends one record). -/
theorem C2_level_gating :
    ∀ (slots : List (Fin 4)) (states : List (List LogEntry)) (threshold v : Nat)
      (level : Str) (now : PyDateTime) (msg : Str),
      levelValue level = some v →
      (v < threshold →
        profil_log (slots.map singleMethodHandler) states threshold level now msg =
          some states) ∧
      (threshold ≤ v →
        profil_log (slots.map singleMethodHandler) states threshold level now msg =
          some (((slots.map singleMethodHandler).zip states).map
            (fun p => p.2 ++ [⟨now, level, msg⟩]))) := by
  intro slots states threshold v level now msg hv
  constructor
  · intro hlt
    rw [profil_log, hv]
    dsimp only
    rw [if_pos hlt]
  · intro hge
    rw [profil_log, hv]
    dsimp only
    rw [if_neg (by omega)]
    congr 1
    apply List.map_congr_left
    intro p hp
    have hmem := List.of_mem_zip hp
    obtain ⟨i, _, hi⟩ := List.mem_map.mp hmem.1
    rw [← hi, write_to_handler_single]

/-- C2 (witness): a two-handler dispatcher at threshold 2 (`WARNING`):
a `DEBUG` call leaves both stores empty, an `ERROR` call appends the
entry to both. -/
theorem C2_witness :
    profil_log [singleMethodHandler 3, singleMethodHandler 2] [[], []] 2
      (str "DEBUG") ⟨2024, 1, 1, 0, 0, 0, 0⟩ (str "m") = some [[], []] ∧
    profil_log [singleMethodHandler 3, singleMethodHandler 2] [[], []] 2
      (str "ERROR") ⟨2024, 1, 1, 0, 0, 0, 0⟩ (str "m") =
      some [[⟨⟨2024, 1, 1, 0, 0, 0, 0⟩, str "ERROR", str "m"⟩],
            [⟨⟨2024, 1, 1, 0, 0, 0, 0⟩, str "ERROR", str "m"⟩]] := by
  constructor
  · exact (C2_level_gating [3, 2] [[], []] 2 0 (str "DEBUG")
      ⟨2024, 1, 1, 0, 0, 0, 0⟩ (str "m") (by decide)).1 (by omega)
  · exact (C2_level_gating [3, 2] [[], []] 2 3 (str "ERROR")
      ⟨2024, 1, 1, 0, 0, 0, 0⟩ (str "m") (by decide)).2 (by omega)

/-- C3: with handlers `[A, B]` where every persist method of `A`
raises, a dispatcher `log` call at or above the threshold still
delivers the entry to `B`, and the call itself returns normally (the
result is `some _`: every handler exception is caught inside
`_write_to_handler`). -/
theorem C3_fanout :
    ∀ (A : MHandler (List LogEntry)) (sA sB : List LogEntry)
      (threshold v : Nat) (level msg : Str) (now : PyDateTime) (i : Fin 4),
      FailsCleanly A → levelValue level = some v → threshold ≤ v →
      profil_log [A, singleMethodHandler i] [sA, sB] threshold level now msg =
        some [sA, sB ++ [⟨now, level, msg⟩]] := by
  intro A sA sB threshold v level msg now i hA hv hge
  rw [profil_log, hv]
  dsimp only
  rw [if_neg (by omega)]
  rw [show ([A, singleMethodHandler i].zip [sA, sB]) =
    [(A, sA), (singleMethodHandler i, sB)] from rfl]
  rw [List.map_cons, List.map_cons, List.map_nil]
  rw [write_to_handler_fails hA, write_to_handler_single]

/-- C3 (witness): a concrete always-raising handler `A` next to a
working file handler `B`. -/
theorem C3_witness :
    profil_log
      [⟨some (fun _ s => (s, false)), none, none, none⟩, singleMethodHandler 3]
      [[], []] 0 (str "INFO") ⟨2024, 1, 1, 0, 0, 0, 0⟩ (str "m") =
      some [[], [⟨⟨2024, 1, 1, 0, 0, 0, 0⟩, str "INFO", str "m"⟩]] := by
  have hfc : FailsCleanly
      (⟨some (fun _ s => (s, false)), none, none, none⟩ : MHandler (List LogEntry)) := by
    refine ⟨?_, ?_, ?_, ?_⟩
    · intro f hf e s
      cases hf
      rfl
    · intro f hf
      cases hf
    · intro f hf
      cases hf
    · intro f hf
      cases hf
  exact C3_fanout _ [] [] 0 1 (str "INFO") (str "m") ⟨2024, 1, 1, 0, 0, 0, 0⟩ 3
    hfc (by decide) (by omega)

/-- C4 (counterexample): a text store with one valid record and one
record whose level name `TREX` is not in the enum.  The claim says
`retrieveAll` returns exactly the 1 valid entry; the code returns 2 —
the text read path never validates the level name (it only checks the
3-way split and the date parse), so the malformed record is kept. -/
theorem C4_cex :
    retrieve_all_logs_file
      (str "2024-01-01T12:00:00 INFO ok\n2024-01-02T12:00:00 TREX bad\n") =
    [⟨⟨2024, 1, 1, 12, 0, 0, 0⟩, str "INFO", str "ok"⟩,
     ⟨⟨2024, 1, 2, 12, 0, 0, 0⟩, str "TREX", str "bad"⟩] := by
  decide

/-- C4 (amended): every retrieval path is total (never raises) and
skips records whose date fails to parse; the text handler additionally
skips lines that do not split into exactly three parts; but an unknown
level name is only treated as malformed by the `from_dict` decoder used
by the JSON and CSV handlers — the text handler keeps such records
(upper-casing the level) and the database handler keeps them verbatim.
Stated as the per-record decode contracts plus the JSON store count. -/
theorem C4_malformed :
    (∀ records : List RawRecord,
      (retrieve_all_logs_json (.arr records)).length =
        (records.filter (fun r => (LogEntry.from_dict r).isSome)).length) ∧
    (∀ (r : RawRecord) (ds : Str), r.date = some (.strv ds) →
      fromisoformat ds = none → LogEntry.from_dict r = none) ∧
    (∀ (r : RawRecord) (ds ls ms : Str), r.date = some (.strv ds) →
      r.level = some (.strv ls) → r.message = some (.strv ms) →
      (levelValue ls).isSome = false → LogEntry.from_dict r = none) ∧
    (∀ (line p0 p1 p2 : Str), pySplitSp2 (pyStrip line) = [p0, p1, p2] →
      fromisoformat p0 = none → decodeFileLine line = none) ∧
    (∀ line : Str, (pySplitSp2 (pyStrip line)).length ≠ 3 →
      decodeFileLine line = none) ∧
    (∀ (line p0 p1 p2 : Str) (d : PyDateTime),
      pySplitSp2 (pyStrip line) = [p0, p1, p2] → fromisoformat p0 = some d →
      decodeFileLine line = some ⟨d, pyUpper p1, p2⟩) ∧
    (∀ row : SqlRow, fromisoformat row.timestamp = none →
      decodeSqlRow row = none) ∧
    (∀ (row : SqlRow) (d : PyDateTime), fromisoformat row.timestamp = some d →
      decodeSqlRow row = some ⟨d, row.level, row.message⟩) := by
  refine ⟨?_, ?_, ?_, ?_, ?_, ?_, ?_, ?_⟩
  · intro records
    rw [retrieve_all_logs_json]
    induction records with
    | nil => rfl
    | cons r rest ih =>
      rw [List.filterMap_cons, List.filter_cons]
      match h : LogEntry.from_dict r with
      | some e => simp [h, ih]
      | none => simp [h, ih]
  · intro r ds hd hparse
    rw [LogEntry.from_dict, hd]
    match hl : r.level, hm : r.message with
    | some lv, some mv =>
      match lv, mv with
      | .strv ls, .strv ms =>
        dsimp only
        rw [hparse]
      | .none', _ => rfl
      | .strv _, .none' => rfl
    | some lv, none => cases lv <;> rfl
    | none, _ => rfl
  · intro r ds ls ms hd hl hm hlv
    rw [LogEntry.from_dict, hd, hl, hm]
    dsimp only
    match hp : fromisoformat ds with
    | none => rfl
    | some d =>
      dsimp only
      rw [if_neg (by rw [hlv]; exact Bool.false_ne_true)]
  · intro line p0 p1 p2 hsplit hparse
    rw [decodeFileLine, hsplit]
    dsimp only
    rw [hparse]
  · intro line hlen
    rw [decodeFileLine]
    match h : pySplitSp2 (pyStrip line) with
    | [] => rfl
    | [_] => rfl
    | [_, _] => rfl
    | [_, _, _] => exact absurd (by rw [h]; rfl) hlen
    | _ :: _ :: _ :: _ :: _ => rfl
  · intro line p0 p1 p2 d hsplit hparse
    rw [decodeFileLine, hsplit]
    dsimp only
    rw [hparse]
  · intro row hparse
    rw [decodeSqlRow, hparse]
  · intro row d hparse
    rw [decodeSqlRow, hparse]

/-- C4 (witness): the decode contracts evaluated at concrete records
(bad date skipped everywhere; unknown level skipped by `from_dict`,
kept by the text decoder). -/
theorem C4_witness :
    LogEntry.from_dict ⟨some (.strv (str "22-06-2024")), some (.strv (str "INFO")),
      some (.strv (str "x"))⟩ = none ∧
    LogEntry.from_dict ⟨some (.strv (str "2024-06-22T12:00:00")),
      some (.strv (str "TREX")), some (.strv (str "x"))⟩ = none ∧
    decodeFileLine (str "2024-01-02T12:00:00 TREX bad") =
      some ⟨⟨2024, 1, 2, 12, 0, 0, 0⟩, str "TREX", str "bad"⟩ ∧
    decodeSqlRow ⟨str "not-a-date", str "INFO", str "x"⟩ = none := by
  refine ⟨?_, ?_, ?_, ?_⟩
  · exact C4_malformed.2.1 _ (str "22-06-2024") rfl (by decide)
  · exact C4_malformed.2.2.1 _ (str "2024-06-22T12:00:00") (str "TREX")
      (str "x") rfl rfl rfl (by decide)
  · exact C4_malformed.2.2.2.2.2.1 _ (str "2024-01-02T12:00:00") (str "TREX")
      (str "bad") ⟨2024, 1, 2, 12, 0, 0, 0⟩ (by decide) (by decide)
  · exact C4_malformed.2.2.2.2.2.2.1 _ (by decide)

/-- C5: the date-range filter shared by all four reader operations
keeps an entry iff `(start unset or start ≤ ts) ∧ (end unset or
ts < end)` — start inclusive, end exclusive; each of the four
operations funnels through `filter_by_date`; and the boundary example:
with entries at `2024-01-01T00:00:00` and `2024-02-01T00:00:00`,
`find_by_text("", end=2024-02-01T00:00:00)` returns only the first. -/
theorem C5_date_range :
    (∀ (logs : List LogEntry) (sd ed : Option PyDateTime) (l : LogEntry),
      l ∈ filter_by_date logs sd ed ↔
        l ∈ logs ∧ (sd = none ∨ ∃ s0, sd = some s0 ∧ dtLe s0 l.date = true) ∧
          (ed = none ∨ ∃ e0, ed = some e0 ∧ dtLt l.date e0 = true)) ∧
    (∀ logs text sd ed, find_by_text logs text sd ed =
      filter_by_date (logs.filter fun log => pyIn text log.message) sd ed) ∧
    (∀ (R : Type) (compile : Str → Option R) (search : R → Str → Bool)
       (logs : List LogEntry) (rx : Str) (sd ed : Option PyDateTime) (p : R),
      compile rx = some p →
      find_by_regex compile search logs rx sd ed =
        filter_by_date (logs.filter fun log => search p log.message) sd ed) ∧
    (∀ logs sd ed, group_by_level logs sd ed =
      pyGroup (fun log => log.level) (filter_by_date logs sd ed)) ∧
    (∀ logs sd ed, group_by_month logs sd ed =
      pyGroup (fun log => monthKey log.date) (filter_by_date logs sd ed)) ∧
    (find_by_text
      [⟨⟨2024, 1, 1, 0, 0, 0, 0⟩, str "INFO", str "a"⟩,
       ⟨⟨2024, 2, 1, 0, 0, 0, 0⟩, str "INFO", str "b"⟩] []
      none (some ⟨2024, 2, 1, 0, 0, 0, 0⟩) =
      [⟨⟨2024, 1, 1, 0, 0, 0, 0⟩, str "INFO", str "a"⟩]) := by
  refine ⟨mem_filter_by_date, fun _ _ _ _ => rfl, ?_, fun _ _ _ => rfl,
    fun _ _ _ => rfl, by decide⟩
  intro R compile search logs rx sd ed p hp
  rw [find_by_regex, hp]

/-- C5 (witness): the regex conjunct instantiated at a concrete
always-compiling engine, plus the (hypothesis-free) boundary check via
the filter characterization. -/
theorem C5_witness :
    find_by_regex (fun _ => some ()) (fun _ m => pyIn (str "cr") m)
      [⟨⟨2024, 1, 2, 0, 0, 0, 0⟩, str "ERROR", str "crash"⟩] (str "cr.*")
      none none =
      filter_by_date
        ([⟨⟨2024, 1, 2, 0, 0, 0, 0⟩, str "ERROR", str "crash"⟩].filter
          fun log => pyIn (str "cr") log.message) none none := by
  exact C5_date_range.2.2.1 Unit (fun _ => some ()) (fun _ m => pyIn (str "cr") m)
    [⟨⟨2024, 1, 2, 0, 0, 0, 0⟩, str "ERROR", str "crash"⟩] (str "cr.*")
    none none () rfl

/-- C6: `group_by_level` partitions the date-filtered entries into a
first-occurrence-ordered mapping from level to the retrieval-ordered
entries at that level; a level with no matching entry has no key at
all; and the concrete `[INFO, ERROR, INFO]` example yields
`{"INFO": [e1, e3], "ERROR": [e2]}` with no `"DEBUG"` key. -/
theorem C6_group_by_level :
    (∀ (logs : List LogEntry) (sd ed : Option PyDateTime) (lvl : Str),
      assocFind lvl (group_by_level logs sd ed) =
        (if (filter_by_date logs sd ed).filter (fun e => e.level = lvl) = []
         then none
         else some ((filter_by_date logs sd ed).filter (fun e => e.level = lvl)))) ∧
    (group_by_level
      [⟨⟨2024, 1, 1, 0, 0, 0, 0⟩, str "INFO", str "e1"⟩,
       ⟨⟨2024, 1, 2, 0, 0, 0, 0⟩, str "ERROR", str "e2"⟩,
       ⟨⟨2024, 1, 3, 0, 0, 0, 0⟩, str "INFO", str "e3"⟩] none none =
      [(str "INFO",
        [⟨⟨2024, 1, 1, 0, 0, 0, 0⟩, str "INFO", str "e1"⟩,
         ⟨⟨2024, 1, 3, 0, 0, 0, 0⟩, str "INFO", str "e3"⟩]),
       (str "ERROR", [⟨⟨2024, 1, 2, 0, 0, 0, 0⟩, str "ERROR", str "e2"⟩])]) ∧
    (assocFind (str "DEBUG")
      (group_by_level
        [⟨⟨2024, 1, 1, 0, 0, 0, 0⟩, str "INFO", str "e1"⟩,
         ⟨⟨2024, 1, 2, 0, 0, 0, 0⟩, str "ERROR", str "e2"⟩,
         ⟨⟨2024, 1, 3, 0, 0, 0, 0⟩, str "INFO", str "e3"⟩] none none) = none) := by
  refine ⟨?_, by decide, by decide⟩
  intro logs sd ed lvl
  rw [group_by_level, assocFind_pyGroup]

/-- C7: the embedded-database retrieval returns, as a sequence sorted
by timestamp ascending (chronological order agrees with the `ORDER BY`
on the canonical timestamp text), exactly the stored rows whose
timestamp parses — rows with unparsable timestamps are skipped, counted
by the length equation — and a missing table yields `[]`, not an
error. -/
theorem C7_sql_retrieve :
    (retrieve_all_logs_sql none = []) ∧
    (∀ rows, (retrieve_all_logs_sql (some rows)).Perm
      (rows.filterMap decodeSqlRow)) ∧
    (∀ rows, (retrieve_all_logs_sql (some rows)).Pairwise
      (fun a b => dtLe a.date b.date = true)) ∧
    (∀ rows, (retrieve_all_logs_sql (some rows)).length =
      (rows.filter (fun r => (fromisoformat r.timestamp).isSome)).length) := by
  refine ⟨rfl, retrieve_all_logs_sql_perm, retrieve_all_logs_sql_sorted, ?_⟩
  intro rows
  rw [(retrieve_all_logs_sql_perm rows).length_eq]
  induction rows with
  | nil => rfl
  | cons r rest ih =>
    rw [List.filterMap_cons, List.filter_cons]
    match h : fromisoformat r.timestamp with
    | some d =>
      have hd : decodeSqlRow r = some ⟨d, r.level, r.message⟩ := by
        rw [decodeSqlRow, h]
      simp [hd, h, ih]
    | none =>
      have hd : decodeSqlRow r = none := by rw [decodeSqlRow, h]
      simp [hd, h, ih]

/-- C8: `set_log_level(name)` assigns the matching severity when the
upper-cased name is a key of `LOG_LEVEL_VALUES` (case-insensitive
match), and for any other name returns the prior threshold unchanged —
it is a total function, so the call never raises. -/
theorem C8_set_log_level :
    ∀ (name : Str) (current : Nat),
      (∀ v, levelValue (pyUpper name) = some v →
        set_log_level name current = v) ∧
      (levelValue (pyUpper name) = none →
        set_log_level name current = current) := by
  intro name current
  constructor
  · intro v hv
    rw [set_log_level, hv]
    rfl
  · intro hn
    rw [set_log_level, hn]
    rfl

/-- C8 (witness): lower-case `"warning"` sets threshold 2; `"UNKNOWN"`
leaves the prior threshold 3 unchanged. -/
theorem C8_witness :
    set_log_level (str "warning") 0 = 2 ∧ set_log_level (str "UNKNOWN") 3 = 3 := by
  constructor
  · exact (C8_set_log_level (str "warning") 0).1 2 (by decide)
  · exact (C8_set_log_level (str "UNKNOWN") 3).2 (by decide)

/-- C9: `find_by_regex` keeps exactly the entries whose message the
compiled pattern matches anywhere (the `search` call of the compiled
pattern), then applies the optional date range; a pattern the engine
fails to compile yields `[]` instead of propagating the error.  The
`re` engine itself is external to the repository and is abstracted by
the `compile`/`search` parameters. -/
theorem C9_find_by_regex :
    ∀ (R : Type) (compile : Str → Option R) (search : R → Str → Bool)
      (logs : List LogEntry) (rx : Str) (sd ed : Option PyDateTime),
      (compile rx = none → find_by_regex compile search logs rx sd ed = []) ∧
      (∀ p, compile rx = some p →
        ∀ l, l ∈ find_by_regex compile search logs rx sd ed ↔
          l ∈ logs ∧ search p l.message = true ∧
          (sd = none ∨ ∃ s0, sd = some s0 ∧ dtLe s0 l.date = true) ∧
          (ed = none ∨ ∃ e0, ed = some e0 ∧ dtLt l.date e0 = true)) := by
  intro R compile search logs rx sd ed
  constructor
  · intro hn
    rw [find_by_regex, hn]
  · intro p hp l
    rw [find_by_regex, hp]
    rw [mem_filter_by_date _ sd ed l, List.mem_filter]
    tauto

/-- C9 (witness): a failing compile yields `[]`; a concrete engine
matching messages containing `"cr"` keeps exactly the crash entry. -/
theorem C9_witness :
    (find_by_regex (R := Unit) (fun _ => none) (fun _ _ => true)
      [⟨⟨2024, 1, 2, 0, 0, 0, 0⟩, str "ERROR", str "crash"⟩] (str "(")
      none none = []) ∧
    ((⟨⟨2024, 1, 2, 0, 0, 0, 0⟩, str "ERROR", str "crash"⟩ : LogEntry) ∈
      find_by_regex (fun _ => some ()) (fun _ m => pyIn (str "cr") m)
        [⟨⟨2024, 1, 1, 0, 0, 0, 0⟩, str "INFO", str "hello"⟩,
         ⟨⟨2024, 1, 2, 0, 0, 0, 0⟩, str "ERROR", str "crash"⟩] (str "cr.*")
        none none) := by
  constructor
  · exact (C9_find_by_regex Unit (fun _ => none) (fun _ _ => true)
      [⟨⟨2024, 1, 2, 0, 0, 0, 0⟩, str "ERROR", str "crash"⟩] (str "(")
      none none).1 rfl
  · exact ((C9_find_by_regex Unit (fun _ => some ()) (fun _ m => pyIn (str "cr") m)
      [⟨⟨2024, 1, 1, 0, 0, 0, 0⟩, str "INFO", str "hello"⟩,
       ⟨⟨2024, 1, 2, 0, 0, 0, 0⟩, str "ERROR", str "crash"⟩] (str "cr.*")
      none none).2 () rfl _).mpr (by decide)

/-- C10: when the JSON file is missing, empty, or holds unparsable
content, `persist(entry)` does not raise: the old content is treated as
an empty array and the file is rewritten to an array holding only the
new entry (the prior content is gone for good), so a subsequent
`retrieveAll` returns exactly that entry (the entry's level being one
of the enum names, per the `LogLevelLiteral` annotation on
`LogEntry.level`). -/
theorem C10_json_overwrite :
    ∀ (content : JsonContent) (e : LogEntry),
      (content = .missing ∨ content = .empty ∨ content = .corrupt) →
      e.date.Valid → (levelValue e.level).isSome = true →
      persist_log_json content e = .arr [e.to_dict] ∧
      retrieve_all_logs_json (persist_log_json content e) = [e] := by
  intro content e hc hV hL
  have hp : persist_log_json content e = .arr [e.to_dict] := by
    rcases hc with rfl | rfl | rfl <;> rfl
  refine ⟨hp, ?_⟩
  rw [hp, retrieve_all_logs_json, List.filterMap_cons, from_dict_to_dict e hV hL]
  rfl

/-- C10 (witness): persisting over a corrupt file leaves exactly the
one new entry retrievable. -/
theorem C10_witness :
    persist_log_json .corrupt ⟨⟨2024, 6, 22, 12, 0, 0, 0⟩, str "INFO", str "x"⟩ =
      .arr [(⟨⟨2024, 6, 22, 12, 0, 0, 0⟩, str "INFO", str "x"⟩ : LogEntry).to_dict] ∧
    retrieve_all_logs_json
      (persist_log_json .corrupt
        ⟨⟨2024, 6, 22, 12, 0, 0, 0⟩, str "INFO", str "x"⟩) =
      [⟨⟨2024, 6, 22, 12, 0, 0, 0⟩, str "INFO", str "x"⟩] := by
  exact C10_json_overwrite .corrupt ⟨⟨2024, 6, 22, 12, 0, 0, 0⟩, str "INFO", str "x"⟩
    (Or.inr (Or.inr rfl)) (by decide) (by decide)
